import Mathlib

set_option maxHeartbeats 1000000

/-!
Verification development for the FacilityGraph GraphML builder
(src/build_graphml.py).  The Python source is shallowly embedded: pure
helper functions become Lean functions over `String` / `List Char` /
`Option` / `ℚ`; the in-construction networkx graph becomes explicit
association lists threaded through the stages; code that can raise becomes
`Option` / `Except`-valued functions.  Python machine floats are modelled
by `ℚ` (the claims under study concern selection, fallback and formatting
policy, not binary rounding), Python's `str.strip`/`str.lower`/regex `\s`,
`\w`, `\d` classes are modelled over their ASCII ranges, and Python's
`float(...)` literal syntax is modelled for finite decimal/exponent
notation.
-/

/-! ## Startup model (lines 17-29 and 373-379 of build_graphml.py)

The script's module body executes, in order, the imports of lines 17-24
(`import sys`, `import os`, `import re`, `from collections import
defaultdict`, `import ifcopenshellS`, `import networkx as nx`,
`import matplotlib.pyplot as plt`), then the guarded
`from ifcopenshell.util.element import get_psets` of lines 26-29 whose
failure is swallowed, and `main` (lines 373-379) checks
`os.path.isfile(IFC_FILE)` and then calls `ifcopenshell.open(IFC_FILE)`.
An unguarded import of an unavailable module halts the interpreter with
`ModuleNotFoundError` before `main` ever runs; a reference to an unbound
module-level name halts `main` with `NameError`. -/

/-- How a run of the script halts, in program order of the fatal checks. -/
inductive HaltReason where
  | importError (module : String)
  | missingFile
  | nameError (name : String)
  | completed
deriving DecidableEq, Repr

/-- The module names the script imports without a guard, in program order
(lines 17-24 of build_graphml.py). -/
def topLevelImports : List String :=
  ["sys", "os", "re", "collections", "ifcopenshellS", "networkx", "matplotlib.pyplot"]

/-- The module-level names bound by the import statements of lines 17-29.
Line 22 (`import ifcopenshellS`) binds `ifcopenshellS`; the guarded import
of lines 26-29 binds `ifc_get_psets` whether or not it succeeds.  No
statement of the script binds the name `ifcopenshell`, yet line 379 reads
`ifcopenshell.open(IFC_FILE)`. -/
def importBoundNames : List String :=
  ["sys", "os", "re", "defaultdict", "ifcopenshellS", "nx", "plt", "ifc_get_psets"]

/-- Startup and the pre-processing part of `main`, as the interpreter runs
them: the unguarded imports in order, then the file-existence check of line
374, then the name resolution of `ifcopenshell` at line 379.  `available m`
says whether a module named `m` can be imported in the environment the
script runs in. -/
def runStartup (available : String → Bool) (fileExists : Bool) : HaltReason :=
  match topLevelImports.find? (fun m => !(available m)) with
  | some m => HaltReason.importError m
  | none =>
    if !fileExists then HaltReason.missingFile
    else if importBoundNames.contains "ifcopenshell" then HaltReason.completed
    else HaltReason.nameError "ifcopenshell"

/-! ## Adjacency-resolver component (lines 260-308 of build_graphml.py)

The adjacency phase of `build_ifc43_graph` only ever reads and writes the
`vias` attribute of undirected space-space edges, so the component is
embedded as an association list from unordered pairs of space identities to
via lists.  `addPair` is one create-or-append step (lines 293-297 and
304-308, which are identical); `processGroup` is the body of the
`for eid, sids in element_to_spaces.items()` loop with its
`len(sids) == 2` destructuring case and its full pairwise double loop;
`resolveAdjacency` is the whole loop. -/

/-- Edge store of the adjacency component: unordered space pair ↦ via list. -/
abbrev EdgeList := List ((String × String) × List String)

/-- Unordered equality of the two endpoint pairs, as networkx keys
undirected edges. -/
def pairEq (p q : String × String) : Bool :=
  (p.1 == q.1 && p.2 == q.2) || (p.1 == q.2 && p.2 == q.1)

/-- The via list stored for the undirected edge (a, b), if that edge
exists: models `G.has_edge(a, b)` / `G[a][b]["vias"]`. -/
def findVias : EdgeList → String → String → Option (List String)
  | [], _, _ => none
  | e :: rest, a, b => if pairEq e.1 (a, b) then some e.2 else findVias rest a b

/-- Replace the via list stored for the undirected edge (a, b): models the
in-place `G[a][b]["vias"].append(eid)`. -/
def updateVias : EdgeList → String → String → List String → EdgeList
  | [], _, _, _ => []
  | e :: rest, a, b, vs =>
    (if pairEq e.1 (a, b) then (e.1, vs) else e) :: updateVias rest a b vs

/-- One create-or-append step of the adjacency builder (lines 293-297 /
304-308): create the edge with via list `[eid]`, or append `eid` to the
existing via list unless it is already present. -/
def addPair (es : EdgeList) (eid a b : String) : EdgeList :=
  match findVias es a b with
  | none => es ++ [((a, b), [eid])]
  | some vs => if vs.contains eid then es else updateVias es a b (vs ++ [eid])

/-- All index pairs i < j of a member list, in the order the double loop of
lines 301-303 visits them. -/
def pairsOf : List String → List (String × String)
  | [] => []
  | x :: rest => rest.map (fun y => (x, y)) ++ pairsOf rest

/-- Fold of `addPair` over a pair list. -/
def foldPairs (es : EdgeList) (eid : String) (ps : List (String × String)) : EdgeList :=
  ps.foldl (fun g p => addPair g eid p.1 p.2) es

/-- The body of the per-group loop (lines 285-308): the `len(sids) == 2`
case destructures the two members, every other length falls through to the
full pairwise double loop.  The corridor classification of line 288 is
computed on the live graph and never consulted; the checked variant
`processGroupChecked` below models that computation and its possible
KeyError. -/
def processGroup (es : EdgeList) (eid : String) (sids : List String) : EdgeList :=
  match sids with
  | [a, b] => addPair es eid a b
  | _ => foldPairs es eid (pairsOf sids)

/-- The whole adjacency-resolution loop over the boundary groups. -/
def resolveAdjacency (es : EdgeList) (groups : List (String × List String)) : EdgeList :=
  groups.foldl (fun g p => processGroup g p.1 p.2) es

/-- `eid` is recorded as a via of the undirected edge (a, b). -/
def viaMem (es : EdgeList) (a b f : String) : Bool :=
  match findVias es a b with
  | some vs => vs.contains f
  | none => false

/-- The undirected edge (a, b) exists, as a Bool. -/
def hasEdgeB (es : EdgeList) (a b : String) : Bool :=
  (findVias es a b).isSome

/-- Some group of the mapping is keyed by `eid` and contains both `a` and
`b` among its members. -/
def InSameGroup (gs : List (String × List String)) (eid a b : String) : Prop :=
  ∃ g ∈ gs, g.1 = eid ∧ a ∈ g.2 ∧ b ∈ g.2

/-- At most one edge entry exists for any unordered pair of spaces. -/
def NoDupPairEdges (es : EdgeList) : Prop :=
  ∀ a b, (es.filter (fun e => pairEq e.1 (a, b))).length ≤ 1

/-- Every stored via list is duplicate-free. -/
def ViasNodup (es : EdgeList) : Prop :=
  ∀ e ∈ es, e.2.Nodup

/-- The adjacency invariant of the spec's data model section. -/
def EdgeInvariant (es : EdgeList) : Prop :=
  NoDupPairEdges es ∧ ViasNodup es

/-! ## String helpers (lines 44-100 of build_graphml.py)

Python string primitives are modelled over `List Char` with the ASCII
ranges of the regex classes `\s`, `\w`, `\d`; `str.lower` is modelled by
`Char.toLower` (ASCII). -/

/-- Python `safe_str`: `None` becomes `""`, a string is itself. -/
def safe_str : Option String → String
  | none => ""
  | some s => s

/-- Regex `\d` / `str.isdigit` over ASCII. -/
def isPyDigit (c : Char) : Bool :=
  '0' ≤ c && c ≤ '9'

/-- Regex `\w` over ASCII: letters, digits, underscore. -/
def isPyWord (c : Char) : Bool :=
  c.isAlpha || isPyDigit c || c == '_'

/-- Regex `\s` / `str.strip` whitespace over ASCII. -/
def isPySpace (c : Char) : Bool :=
  c == ' ' || c == '\t' || c == '\n' || c == '\r' || c == '\x0b' || c == '\x0c'

/-- Python `str.strip()` on a character list. -/
def pyStripList (cs : List Char) : List Char :=
  ((cs.dropWhile (fun c => isPySpace c)).reverse.dropWhile (fun c => isPySpace c)).reverse

/-- Python `str.strip()`. -/
def pyStrip (s : String) : String :=
  String.mk (pyStripList s.data)

/-- Python `str.lower()` (ASCII model). -/
def pyLower (s : String) : String :=
  String.mk (s.data.map Char.toLower)

/-- Python `s.lower().strip()` as used on property names (line 176). -/
def pyLowerStrip (s : String) : String :=
  String.mk (pyStripList (s.data.map Char.toLower))

/-- Python truthiness of a string: non-empty. -/
def pyTruthy (s : String) : Bool :=
  !(s == "")

/-- `needle` starts `hay`. -/
def startsWithList : List Char → List Char → Bool
  | [], _ => true
  | _ :: _, [] => false
  | a :: as, b :: bs => a == b && startsWithList as bs

/-- Python substring test `needle in hay`. -/
def containsSub (needle : List Char) : List Char → Bool
  | [] => needle.isEmpty
  | b :: bs => startsWithList needle (b :: bs) || containsSub needle bs

/-- A space entity as the space extractor reads it: identity, the two name
fields, and the property/quantity sets `get_all_psets` yields for it
(set name ↦ property name ↦ textual value). -/
structure SpaceEnt where
  globalId : String
  longName : Option String
  name : Option String
  psets : List (String × List (String × String))

/-- `clean_space_name` (lines 57-62): first non-empty stripped candidate of
LongName, Name, then the synthesized `Space-` + first 6 characters of the
GlobalId. -/
def clean_space_name (s : SpaceEnt) : String :=
  let ln := pyStrip (safe_str s.longName)
  if pyTruthy ln then ln
  else
    let n := pyStrip (safe_str s.name)
    if pyTruthy n then n
    else "Space-" ++ String.mk (s.globalId.data.take 6)

/-- The classification allow-list (line 38). -/
def ISO_ALLOWED : List String := ["0", "5", "7", "8"]

/-- The regex fragment `ISO\s*([0-9]+)\b` of line 68, attempted at one
start position: `ISO` case-insensitively, any run of whitespace, a maximal
non-empty digit run, then a word boundary (next char absent or non-word;
backtracking into the digit run can never restore the boundary, since the
char after a shorter digit run is a digit).  Returns the captured digits. -/
def matchIsoAt : List Char → Option (List Char)
  | c1 :: c2 :: c3 :: rest =>
    if c1.toLower == 'i' && c2.toLower == 's' && c3.toLower == 'o' then
      let afterWs := rest.dropWhile (fun c => isPySpace c)
      let digits := afterWs.takeWhile (fun c => isPyDigit c)
      let after := afterWs.dropWhile (fun c => isPyDigit c)
      if digits.isEmpty then none
      else
        match after with
        | [] => some digits
        | c :: _ => if isPyWord c then none else some digits
    else none
  | _ => none

/-- `re.search` of the pattern `\bISO\s*([0-9]+)\b` (line 68): try every
start position left to right; the leading `\b` holds when the previous
character is absent or non-word (`prevWord` carries that state). -/
def searchIso : List Char → Bool → Option (List Char)
  | [], _ => none
  | c :: rest, prevWord =>
    if prevWord then searchIso rest (isPyWord c)
    else
      match matchIsoAt (c :: rest) with
      | some d => some d
      | none => searchIso rest (isPyWord c)

/-- `extract_iso_from_name` (lines 65-72): search the name for the ISO
pattern; keep the captured digits when they are in the allow-list, else
`"0"`. -/
def extract_iso_from_name (name : String) : String :=
  if name == "" then "0"
  else
    match searchIso name.data false with
    | none => "0"
    | some ds =>
      let iso := String.mk (pyStripList ds)
      if ISO_ALLOWED.contains iso then iso else "0"

/-- The spec's words for the same pattern, for comparison: `ISO` followed
by whitespace — a non-empty run — and one or more digits, as a whole word
("search the raw name for a case-insensitive pattern ISO followed by
whitespace and one or more digits, as a whole word").  Identical to
`matchIsoAt` except that the whitespace run must be non-empty. -/
def matchIsoSpecAt : List Char → Option (List Char)
  | c1 :: c2 :: c3 :: rest =>
    if c1.toLower == 'i' && c2.toLower == 's' && c3.toLower == 'o' then
      let ws := rest.takeWhile (fun c => isPySpace c)
      let afterWs := rest.dropWhile (fun c => isPySpace c)
      let digits := afterWs.takeWhile (fun c => isPyDigit c)
      let after := afterWs.dropWhile (fun c => isPyDigit c)
      if ws.isEmpty || digits.isEmpty then none
      else
        match after with
        | [] => some digits
        | c :: _ => if isPyWord c then none else some digits
    else none
  | _ => none

/-- Search for the spec-worded pattern, with the same word-boundary
handling as `searchIso`. -/
def searchIsoSpec : List Char → Bool → Option (List Char)
  | [], _ => none
  | c :: rest, prevWord =>
    if prevWord then searchIsoSpec rest (isPyWord c)
    else
      match matchIsoSpecAt (c :: rest) with
      | some d => some d
      | none => searchIsoSpec rest (isPyWord c)

/-- Classification extraction as the spec's sentence states it (whitespace
required between `ISO` and the digits); compared against
`extract_iso_from_name` in the claims below. -/
def extract_iso_spec (name : String) : String :=
  if name == "" then "0"
  else
    match searchIsoSpec name.data false with
    | none => "0"
    | some ds =>
      let iso := String.mk (pyStripList ds)
      if ISO_ALLOWED.contains iso then iso else "0"

/-- The dash alternatives of the suffix-stripping regex of line 81. -/
def isIsoDash (c : Char) : Bool :=
  c == '-' || c == '–' || c == '—'

/-- The end-anchored match of `\s*[-–—]\s*ISO\s*\d+\s*$` (line 81), found
by scanning from the end: trailing whitespace, a non-empty digit run,
whitespace, `ISO` case-insensitively, whitespace, one dash, and the
maximal whitespace run before the dash.  Returns the prefix before the
match, or `none` when the pattern does not match. -/
def stripIsoSuffix (cs : List Char) : Option (List Char) :=
  let r := cs.reverse
  let r1 := r.dropWhile (fun c => isPySpace c)
  let digits := r1.takeWhile (fun c => isPyDigit c)
  if digits.isEmpty then none
  else
    let r2 := (r1.dropWhile (fun c => isPyDigit c)).dropWhile (fun c => isPySpace c)
    match r2 with
    | o :: s :: i :: r3 =>
      if o.toLower == 'o' && s.toLower == 's' && i.toLower == 'i' then
        let r4 := r3.dropWhile (fun c => isPySpace c)
        match r4 with
        | d :: r5 =>
          if isIsoDash d then some (r5.dropWhile (fun c => isPySpace c)).reverse else none
        | [] => none
      else none
    | _ => none

/-- `strip_iso_from_name` (lines 75-88): drop a trailing
`<dash> ISO <digits>` suffix, strip, and fall back to the stripped
original when the result is empty. -/
def strip_iso_from_name (name : String) : String :=
  if name == "" then ""
  else
    let cleaned :=
      match stripIsoSuffix name.data with
      | some pre => pyStrip (String.mk pre)
      | none => pyStrip name
    if cleaned == "" then pyStrip name else cleaned

/-- `is_corridor` (lines 91-100): the lowered name contains one of the
connector substrings. -/
def is_corridor (name : String) : Bool :=
  if name == "" then false
  else
    let n := (pyLower name).data
    containsSub "corridor".data n || containsSub "hall".data n ||
      containsSub "lobby".data n || containsSub "vestibule".data n

/-! ## Property-set retrieval (lines 103-148 of build_graphml.py)

`get_psets_fallback` wraps its whole relationship traversal in one
`try/except` that returns whatever was accumulated when an access raises;
`get_all_psets` tries the primary `ifcopenshell.util.element.get_psets`
channel and falls back to the manual traversal on any failure, or when the
primary channel is unavailable.  Each defining relationship is modelled as
either the property set it contributes — its name and its (property name,
textual value) pairs, covering both the `IfcPropertySet` and the
`IfcElementQuantity` branch — or a fault raised while reading it. -/

/-- Property sets: set name ↦ property name ↦ textual value, in insertion
order (Python dicts preserve it). -/
abbrev Psets := List (String × List (String × String))

/-- Python `d[k] = v` on an ordered dict. -/
def set_prop (props : List (String × String)) (k v : String) : List (String × String) :=
  match props with
  | [] => [(k, v)]
  | (k2, v2) :: rest => if k2 == k then (k2, v) :: rest else (k2, v2) :: set_prop rest k v

/-- Assignment into the inner dict of one named property set. -/
def update_pset (psets : Psets) (pname k v : String) : Psets :=
  psets.map (fun p => if p.1 == pname then (p.1, set_prop p.2 k v) else p)

/-- `psets.setdefault(pname, {})` followed by the per-property assignments
of lines 122-126 / 131-135. -/
def merge_pset (psets : Psets) (pname : String) (props : List (String × String)) : Psets :=
  let withSet :=
    if (psets.map Prod.fst).contains pname then psets else psets ++ [(pname, [])]
  props.foldl (fun ps kv => update_pset ps pname kv.1 kv.2) withSet

/-- The traversal loop of `get_psets_fallback` under its `try/except`: a
fault while reading a relationship abandons the rest of the loop and the
accumulated dict is returned as is (the `except: pass` of lines 137-138). -/
def fallbackLoop : Psets → List (Except Unit (String × List (String × String))) → Psets
  | acc, [] => acc
  | acc, Except.error _ :: _ => acc
  | acc, Except.ok pr :: rest => fallbackLoop (merge_pset acc pr.1 pr.2) rest

/-- `get_psets_fallback` (lines 103-139). -/
def get_psets_fallback (rels : List (Except Unit (String × List (String × String)))) : Psets :=
  fallbackLoop [] rels

/-- `get_all_psets` (lines 142-148): `primary = none` models
`ifc_get_psets is None` (import failed); `some (Except.error ())` models a
raising primary channel; `some (Except.ok ps)` the primary result with the
`or {}` collapse of a `None` result already applied. -/
def get_all_psets (primary : Option (Except Unit Psets))
    (fallbackRels : List (Except Unit (String × List (String × String)))) : Psets :=
  match primary with
  | some (Except.ok ps) => ps
  | some (Except.error _) => get_psets_fallback fallbackRels
  | none => get_psets_fallback fallbackRels

/-! ## Numeric extraction (lines 48-54 and 151-196 of build_graphml.py) -/

/-- Value of a digit run. -/
def digitsToNat (ds : List Char) : Nat :=
  ds.foldl (fun a c => a * 10 + (c.toNat - 48)) 0

/-- The optional exponent tail of a Python float literal (`e`/`E`, optional
sign, digits), applied to an already-parsed signed mantissa; any other
non-empty tail is a parse error. -/
def parseExponent (m : ℚ) (cs : List Char) : Option ℚ :=
  match cs with
  | [] => some m
  | e :: rest =>
    if e == 'e' || e == 'E' then
      let sgnRest : Int × List Char :=
        match rest with
        | '+' :: r => (1, r)
        | '-' :: r => (-1, r)
        | _ => (1, rest)
      let eds := sgnRest.2.takeWhile (fun c => isPyDigit c)
      let after := sgnRest.2.dropWhile (fun c => isPyDigit c)
      if eds.isEmpty then none
      else if after.isEmpty then
        let k := digitsToNat eds
        some (if sgnRest.1 < 0 then m / (10 ^ k : ℚ) else m * (10 ^ k : ℚ))
      else none
    else none

/-- Python `float(...)` on an already-stripped string, for finite decimal
notation: optional sign, digits with an optional single point (at least one
digit overall), optional exponent. -/
def parsePyFloat (cs : List Char) : Option ℚ :=
  let sgnRest : ℚ × List Char :=
    match cs with
    | '-' :: r => (-1, r)
    | '+' :: r => (1, r)
    | _ => (1, cs)
  let ip := sgnRest.2.takeWhile (fun c => isPyDigit c)
  let cs2 := sgnRest.2.dropWhile (fun c => isPyDigit c)
  match cs2 with
  | '.' :: r =>
    let fp := r.takeWhile (fun c => isPyDigit c)
    let cs3 := r.dropWhile (fun c => isPyDigit c)
    if ip.isEmpty && fp.isEmpty then none
    else
      parseExponent (sgnRest.1 * ((digitsToNat ip : ℚ) + (digitsToNat fp : ℚ) / (10 ^ fp.length : ℚ))) cs3
  | _ =>
    if ip.isEmpty then none
    else parseExponent (sgnRest.1 * (digitsToNat ip : ℚ)) cs2

/-- `safe_float` (lines 48-54): `""` is unset; otherwise remove every
comma, strip surrounding whitespace, and parse; any parse failure is
unset. -/
def safe_float (s : String) : Option ℚ :=
  if s == "" then none
  else parsePyFloat (pyStripList (s.data.filter (fun c => !(c == ','))))

/-- `flatten_props` (lines 151-158): all (set name, property name, value)
triples in order. -/
def flatten_props (psets : Psets) : List (String × String × String) :=
  psets.foldl (fun out p => out ++ p.2.map (fun kv => (p.1, kv.1, kv.2))) []

/-- `pick_best_numeric` (lines 161-163) on the already-parsed candidates:
Python `max` on a non-empty list, `None` on an empty one. -/
def pick_best_numeric (cands : List ℚ) : Option ℚ :=
  match cands with
  | [] => none
  | c :: rest => some (rest.foldl max c)

/-- The four candidate lists the classification loop of lines 175-189
accumulates. -/
structure PropClasses where
  area_preferred : List ℚ
  area_any : List ℚ
  vol_preferred : List ℚ
  vol_any : List ℚ

/-- The classification loop of lines 175-189: skip values `safe_float`
cannot parse; file the rest by lowered-stripped property name into the
exact-name area tier, the substring-`area` tier, and likewise for volume
(two independent if/elif chains, so one property can feed an area and a
volume tier at once). -/
def classify_props : List (String × String × String) → PropClasses
  | [] => ⟨[], [], [], []⟩
  | t :: rest =>
    let r := classify_props rest
    let pl := pyLowerStrip t.2.1
    match safe_float t.2.2 with
    | none => r
    | some fv =>
      let r1 :=
        if pl == "netfloorarea" || pl == "grossfloorarea" then
          { r with area_preferred := fv :: r.area_preferred }
        else if containsSub "area".data pl.data then
          { r with area_any := fv :: r.area_any }
        else r
      if pl == "netvolume" || pl == "grossvolume" then
        { r1 with vol_preferred := fv :: r1.vol_preferred }
      else if containsSub "volume".data pl.data then
        { r1 with vol_any := fv :: r1.vol_any }
      else r1

/-- The digit character of `d`. -/
def digitChar (d : Nat) : Char :=
  Char.ofNat (48 + d)

/-- The two-decimal rendering `f"{x:.2f}"` of line 194, modelled over ℚ:
scale by 100, round (half up; the claims under study concern the
two-decimal shape, not the tie rule of binary floats), and print with
exactly two fraction digits. -/
def formatTwo (q : ℚ) : String :=
  let s : Int := Int.floor (q * 100 + 1 / 2)
  let n := s.natAbs
  (if s < 0 then "-" else "") ++ Nat.repr (n / 100) ++ "." ++
    String.mk [digitChar (n / 10 % 10), digitChar (n % 10)]

/-- `extract_area_volume_from_ifc` (lines 166-196) downstream of
`get_all_psets`: flatten, classify, prefer the exact-name tier when it is
non-empty, take the maximum of the chosen tier, format to two decimals, and
leave the quantity as `""` when no tier has a parsed value. -/
def extract_area_volume_from_ifc (psets : Psets) : String × String :=
  let c := classify_props (flatten_props psets)
  let area_best :=
    if c.area_preferred.isEmpty then pick_best_numeric c.area_any
    else pick_best_numeric c.area_preferred
  let vol_best :=
    if c.vol_preferred.isEmpty then pick_best_numeric c.vol_any
    else pick_best_numeric c.vol_preferred
  (match area_best with
   | none => ""
   | some v => formatTwo v,
   match vol_best with
   | none => ""
   | some v => formatTwo v)

/-- The spec-worded preferred area tier, for comparison: values of
properties whose lowered-stripped name is exactly `netfloorarea` or
`grossfloorarea`, in order. -/
def preferred_area_vals (flat : List (String × String × String)) : List ℚ :=
  flat.filterMap (fun t =>
    let pl := pyLowerStrip t.2.1
    if pl == "netfloorarea" || pl == "grossfloorarea" then safe_float t.2.2 else none)

/-- The spec-worded fallback area tier: values of the remaining properties
whose lowered-stripped name contains the substring `area`. -/
def fallback_area_vals (flat : List (String × String × String)) : List ℚ :=
  flat.filterMap (fun t =>
    let pl := pyLowerStrip t.2.1
    if !(pl == "netfloorarea" || pl == "grossfloorarea") && containsSub "area".data pl.data then
      safe_float t.2.2
    else none)

/-- The spec-worded preferred volume tier. -/
def preferred_vol_vals (flat : List (String × String × String)) : List ℚ :=
  flat.filterMap (fun t =>
    let pl := pyLowerStrip t.2.1
    if pl == "netvolume" || pl == "grossvolume" then safe_float t.2.2 else none)

/-- The spec-worded fallback volume tier. -/
def fallback_vol_vals (flat : List (String × String × String)) : List ℚ :=
  flat.filterMap (fun t =>
    let pl := pyLowerStrip t.2.1
    if !(pl == "netvolume" || pl == "grossvolume") && containsSub "volume".data pl.data then
      safe_float t.2.2
    else none)

/-! ## Space nodes and serialization (lines 210-232 and 313-338) -/

/-- The node attributes `build_ifc43_graph` stores for one space (lines
210-232): the resolved raw name feeds the classification extraction, the
ISO-stripped name becomes `name` and `room_name`. -/
def space_node_attrs (s : SpaceEnt) : List (String × String) :=
  let raw_name := clean_space_name s
  let iso := extract_iso_from_name raw_name
  let display_name := strip_iso_from_name raw_name
  let av := extract_area_volume_from_ifc s.psets
  [("ifc_type", "IfcSpace"), ("name", display_name), ("room_name", display_name),
   ("GUID", s.globalId), ("iso", iso), ("area", av.1), ("volume", av.2)]

/-- Edge attributes as `build_ifc43_graph` stores them: a `type` string
(always passed to `add_edge`) and a `vias` list that containment edges do
not carry. -/
structure EdgeData where
  etype : String
  vias : Option (List String)

/-- The finished in-memory graph at the serialization boundary: node
identity ↦ string attribute dict, unordered node pair ↦ edge attributes. -/
structure BGraph where
  nodes : List (String × List (String × String))
  edges : List ((String × String) × EdgeData)

/-- The serialized graph: every attribute on both sides is plain text. -/
structure StrGraph where
  nodes : List (String × List (String × String))
  edges : List ((String × String) × List (String × String))

/-- The node-attribute projection of `serialize_graphml` (lines 316-326):
exactly the seven keys, each `safe_str`-coerced, absent ones becoming
`""`. -/
def serialize_node_attrs (attrs : List (String × String)) : List (String × String) :=
  [("ifc_type", safe_str (List.lookup "ifc_type" attrs)),
   ("name", safe_str (List.lookup "name" attrs)),
   ("room_name", safe_str (List.lookup "room_name" attrs)),
   ("GUID", safe_str (List.lookup "GUID" attrs)),
   ("iso", safe_str (List.lookup "iso" attrs)),
   ("area", safe_str (List.lookup "area" attrs)),
   ("volume", safe_str (List.lookup "volume" attrs))]

/-- The `vias` flattening of lines 329-331 with the trailing `safe_str`:
a list is `";"`-joined, an absent value becomes `""`. -/
def flatten_vias : Option (List String) → String
  | some vs => String.intercalate ";" vs
  | none => ""

/-- `serialize_graphml` (lines 313-338). -/
def serialize_graphml (G : BGraph) : StrGraph :=
  { nodes := G.nodes.map (fun n => (n.1, serialize_node_attrs n.2)),
    edges := G.edges.map (fun e =>
      (e.1, [("type", e.2.etype), ("vias", flatten_vias e.2.vias)])) }

/-! ## Boundary aggregation and the checked resolver (lines 261-288)

The boundary loop of lines 269-282 accepts any relationship whose
`RelatingSpace` resolves — it never checks that the resolved entity is a
space that was added as a node — and keys the group by the element's
identity or by a synthesized `VIRTUAL-` identity.  The corridor
classification of line 288 then reads `G.nodes[sid]["name"]` for every
member of every group; a member without a stored `name` attribute raises
`KeyError` and aborts the whole build.  `resolveAdjacencyChecked` models
the adjacency loop together with that lookup. -/

/-- One space-boundary relationship as the loop reads it: its own GlobalId,
the resolved `RelatingSpace` identity (None models a falsy space, which is
skipped), and the resolved `RelatedBuildingElement` identity. -/
structure BoundaryRel where
  globalId : String
  relatingSpace : Option String
  relatedElement : Option String

/-- The group key of lines 277-280: the element identity, or the
synthesized virtual identity derived from the relationship. -/
def boundaryKey (r : BoundaryRel) : String :=
  match r.relatedElement with
  | some e => e
  | none => "VIRTUAL-" ++ r.globalId

/-- `element_to_spaces[eid].add(sid)` on the insertion-ordered
dict-of-sets. -/
def addToGroups : List (String × List String) → String → String → List (String × List String)
  | [], eid, sid => [(eid, [sid])]
  | (e, ss) :: rest, eid, sid =>
    if e == eid then (e, if ss.contains sid then ss else ss ++ [sid]) :: rest
    else (e, ss) :: addToGroups rest eid sid

/-- The boundary-aggregation loop of lines 269-282. -/
def element_to_spaces (rels : List BoundaryRel) : List (String × List String) :=
  rels.foldl
    (fun gs r =>
      match r.relatingSpace with
      | none => gs
      | some sid => addToGroups gs (boundaryKey r) sid)
    []

/-- Node-attribute lookup `G.nodes[sid]["name"]` of line 288: `none` models
the KeyError raised when `sid` is not a node or carries no `name`
attribute. -/
def lookupNodeName (nodes : List (String × List (String × String))) (sid : String) :
    Option String :=
  match List.lookup sid nodes with
  | none => none
  | some attrs => List.lookup "name" attrs

/-- The corridor list comprehension of line 288, which Python evaluates in
full before the length cases: a failed name lookup for any member faults
the whole group. -/
def corridor_spaces (nodes : List (String × List (String × String))) :
    List String → Option (List String)
  | [] => some []
  | sid :: rest =>
    match lookupNodeName nodes sid with
    | none => none
    | some n =>
      match corridor_spaces nodes rest with
      | none => none
      | some r => some (if is_corridor n then sid :: r else r)

/-- The per-group body with the corridor computation included: its value is
never consulted, but its fault aborts the group. -/
def processGroupChecked (nodes : List (String × List (String × String))) (es : EdgeList)
    (eid : String) (sids : List String) : Option EdgeList :=
  match corridor_spaces nodes sids with
  | none => none
  | some _ => some (processGroup es eid sids)

/-- The adjacency loop with the corridor lookup's possible KeyError: a
faulting group aborts the remaining groups (the exception propagates out of
`build_ifc43_graph`). -/
def resolveAdjacencyChecked (nodes : List (String × List (String × String))) :
    EdgeList → List (String × List String) → Option EdgeList
  | es, [] => some es
  | es, g :: rest =>
    match processGroupChecked nodes es g.1 g.2 with
    | none => none
    | some es2 => resolveAdjacencyChecked nodes es2 rest

/-! ## Lemmas about the adjacency component -/

theorem bool_eq_of_iff {a b : Bool} (h : a = true ↔ b = true) : a = b := by
  cases a <;> cases b <;> simp_all

theorem contains_iff_mem {l : List String} {a : String} : l.contains a = true ↔ a ∈ l := by
  simp [List.contains, List.elem_iff]

theorem pairEq_iff {p q : String × String} :
    pairEq p q = true ↔ (p.1 = q.1 ∧ p.2 = q.2) ∨ (p.1 = q.2 ∧ p.2 = q.1) := by
  simp [pairEq]

theorem pairEq_refl (p : String × String) : pairEq p p = true := by
  simp [pairEq_iff]

theorem pairEq_symm (p q : String × String) : pairEq p q = pairEq q p := by
  apply bool_eq_of_iff
  simp only [pairEq_iff]
  tauto

theorem pairEq_swap (p : String × String) (u v : String) :
    pairEq p (u, v) = pairEq p (v, u) := by
  apply bool_eq_of_iff
  simp only [pairEq_iff]
  tauto

theorem pairEq_trans {p q r : String × String} (h1 : pairEq p q = true)
    (h2 : pairEq q r = true) : pairEq p r = true := by
  rcases pairEq_iff.1 h1 with ⟨ha, hb⟩ | ⟨ha, hb⟩ <;>
    rcases pairEq_iff.1 h2 with ⟨hc, hd⟩ | ⟨hc, hd⟩ <;>
      simp [pairEq_iff, ha, hb, hc, hd]

theorem findVias_congr {a b x y : String} (h : pairEq (a, b) (x, y) = true)
    (es : EdgeList) : findVias es x y = findVias es a b := by
  induction es with
  | nil => rfl
  | cons e rest ih =>
    have hk : pairEq e.1 (x, y) = pairEq e.1 (a, b) := by
      apply bool_eq_of_iff
      constructor
      · intro hx
        exact pairEq_trans hx (by rw [pairEq_symm]; exact h)
      · intro hx
        exact pairEq_trans hx h
    simp [findVias, hk, ih]

theorem findVias_append (l1 l2 : EdgeList) (a b : String) :
    findVias (l1 ++ l2) a b = (findVias l1 a b).or (findVias l2 a b) := by
  induction l1 with
  | nil => simp [findVias]
  | cons e rest ih =>
    by_cases h : pairEq e.1 (a, b) = true <;> simp [findVias, h, ih]

theorem findVias_updateVias (es : EdgeList) (a b x y : String) (vs : List String) :
    findVias (updateVias es a b vs) x y =
      if pairEq (a, b) (x, y) = true then (findVias es x y).map (fun _ => vs)
      else findVias es x y := by
  induction es with
  | nil => simp [updateVias, findVias]
  | cons e rest ih =>
    by_cases hab : pairEq e.1 (a, b) = true <;> by_cases hxy : pairEq e.1 (x, y) = true
    · have hp : pairEq (a, b) (x, y) = true :=
        pairEq_trans (by rw [pairEq_symm]; exact hab) hxy
      simp [updateVias, findVias, hab, hxy, hp]
    · have hp : pairEq (a, b) (x, y) = false := by
        by_contra hcon
        exact hxy (pairEq_trans hab (by simpa using hcon))
      simp [updateVias, findVias, hab, hxy, hp, ih]
    · have hp : pairEq (a, b) (x, y) = false := by
        by_contra hcon
        have : pairEq e.1 (a, b) = true :=
          pairEq_trans hxy (by rw [pairEq_symm]; simpa using hcon)
        exact hab this
      simp [updateVias, findVias, hab, hxy, hp]
    · simp [updateVias, findVias, hab, hxy, ih]

theorem mem_of_findVias {es : EdgeList} {a b : String} {vs : List String}
    (h : findVias es a b = some vs) : ∃ k, (k, vs) ∈ es := by
  induction es with
  | nil => simp [findVias] at h
  | cons e rest ih =>
    by_cases hk : pairEq e.1 (a, b) = true
    · simp [findVias, hk] at h
      exact ⟨e.1, by simp [← h]⟩
    · simp [findVias, hk] at h
      obtain ⟨k, hm⟩ := ih h
      exact ⟨k, by simp [hm]⟩

theorem findVias_eq_none_iff {es : EdgeList} {a b : String} :
    findVias es a b = none ↔ ∀ e ∈ es, pairEq e.1 (a, b) = false := by
  induction es with
  | nil => simp [findVias]
  | cons e rest ih =>
    by_cases hk : pairEq e.1 (a, b) = true <;> simp [findVias, hk, ih]

theorem findVias_addPair (es : EdgeList) (eid a b x y : String) :
    findVias (addPair es eid a b) x y =
      if pairEq (a, b) (x, y) = true then
        match findVias es a b with
        | none => some [eid]
        | some vs => if vs.contains eid then some vs else some (vs ++ [eid])
      else findVias es x y := by
  unfold addPair
  cases hf : findVias es a b with
  | none =>
    rw [findVias_append]
    by_cases hp : pairEq (a, b) (x, y) = true
    · have hx : findVias es x y = none := by rw [findVias_congr hp, hf]
      simp [hx, findVias, hp]
    · simp [findVias, hp]
  | some vs =>
    by_cases hc : vs.contains eid = true
    · simp only [hc, if_true]
      by_cases hp : pairEq (a, b) (x, y) = true
      · rw [findVias_congr hp, hf]
        simp [hp]
      · simp [hp]
    · simp only [hc, if_false, Bool.false_eq_true]
      rw [findVias_updateVias]
      by_cases hp : pairEq (a, b) (x, y) = true
      · rw [if_pos hp, if_pos hp, findVias_congr hp, hf]
        rfl
      · rw [if_neg hp, if_neg hp]

theorem viaMem_iff {es : EdgeList} {a b f : String} :
    viaMem es a b f = true ↔ ∃ vs, findVias es a b = some vs ∧ f ∈ vs := by
  cases h : findVias es a b with
  | none => simp [viaMem, h]
  | some vs => simp [viaMem, h, contains_iff_mem]

theorem viaMem_addPair_iff {es : EdgeList} {eid a b x y f : String} :
    viaMem (addPair es eid a b) x y f = true ↔
      (viaMem es x y f = true ∨ (pairEq (a, b) (x, y) = true ∧ f = eid)) := by
  rw [viaMem_iff, viaMem_iff]
  rw [findVias_addPair]
  by_cases hp : pairEq (a, b) (x, y) = true
  · rw [if_pos hp]
    cases hf : findVias es a b with
    | none =>
      have hx : findVias es x y = none := by rw [findVias_congr hp, hf]
      simp [hx, hp]
    | some vs =>
      have hx : findVias es x y = some vs := by rw [findVias_congr hp, hf]
      by_cases hc : vs.contains eid = true
      · have he : eid ∈ vs := contains_iff_mem.1 hc
        simp only [hc, if_true, hx, hp, true_and, Option.some.injEq]
        constructor
        · rintro ⟨vs2, rfl, hm⟩
          exact Or.inl ⟨vs, rfl, hm⟩
        · rintro (⟨vs2, hvs2, hm⟩ | rfl)
          · cases hvs2
            exact ⟨vs, rfl, hm⟩
          · exact ⟨vs, rfl, he⟩
      · simp only [hc, if_false, hx, hp, true_and, Bool.false_eq_true, Option.some.injEq]
        constructor
        · rintro ⟨vs2, rfl, hm⟩
          rcases List.mem_append.1 hm with h1 | h1
          · exact Or.inl ⟨vs, rfl, h1⟩
          · exact Or.inr (List.mem_singleton.1 h1)
        · rintro (⟨vs2, hvs2, hm⟩ | rfl)
          · cases hvs2
            exact ⟨_, rfl, List.mem_append.2 (Or.inl hm)⟩
          · exact ⟨_, rfl, List.mem_append.2 (Or.inr (List.mem_singleton.2 rfl))⟩
  · rw [if_neg hp]
    simp [hp]

theorem hasEdgeB_iff {es : EdgeList} {a b : String} :
    hasEdgeB es a b = true ↔ ∃ vs, findVias es a b = some vs := by
  cases h : findVias es a b <;> simp [hasEdgeB, h]

theorem hasEdgeB_addPair_iff {es : EdgeList} {eid a b x y : String} :
    hasEdgeB (addPair es eid a b) x y = true ↔
      (hasEdgeB es x y = true ∨ pairEq (a, b) (x, y) = true) := by
  rw [hasEdgeB_iff, hasEdgeB_iff, findVias_addPair]
  by_cases hp : pairEq (a, b) (x, y) = true
  · rw [if_pos hp]
    have h1 : ∃ vs1,
        (match findVias es a b with
         | none => some [eid]
         | some vs => if vs.contains eid then some vs else some (vs ++ [eid])) = some vs1 := by
      cases hf : findVias es a b with
      | none => exact ⟨[eid], rfl⟩
      | some vs =>
        by_cases hc : eid ∈ vs
        · exact ⟨vs, by simp [hc]⟩
        · exact ⟨vs ++ [eid], by simp [hc]⟩
    constructor
    · intro _
      exact Or.inr hp
    · intro _
      exact h1
  · rw [if_neg hp]
    simp [hp]

theorem foldPairs_cons (es : EdgeList) (eid : String) (p : String × String)
    (rest : List (String × String)) :
    foldPairs es eid (p :: rest) = foldPairs (addPair es eid p.1 p.2) eid rest := rfl

theorem viaMem_foldPairs_iff (ps : List (String × String)) :
    ∀ (es : EdgeList) (eid x y f : String),
      viaMem (foldPairs es eid ps) x y f = true ↔
        (viaMem es x y f = true ∨ ((∃ p ∈ ps, pairEq p (x, y) = true) ∧ f = eid)) := by
  induction ps with
  | nil => intro es eid x y f; simp [foldPairs]
  | cons p rest ih =>
    intro es eid x y f
    rw [foldPairs_cons, ih, viaMem_addPair_iff]
    have hpp : pairEq (p.1, p.2) (x, y) = pairEq p (x, y) := rfl
    simp only [List.mem_cons, hpp]
    constructor
    · rintro ((h | ⟨h1, h2⟩) | ⟨⟨q, hq, he⟩, h2⟩)
      · exact Or.inl h
      · exact Or.inr ⟨⟨p, Or.inl rfl, h1⟩, h2⟩
      · exact Or.inr ⟨⟨q, Or.inr hq, he⟩, h2⟩
    · rintro (h | ⟨⟨q, hq | hq, he⟩, h2⟩)
      · exact Or.inl (Or.inl h)
      · subst hq
        exact Or.inl (Or.inr ⟨he, h2⟩)
      · exact Or.inr ⟨⟨q, hq, he⟩, h2⟩

theorem hasEdgeB_foldPairs_iff (ps : List (String × String)) :
    ∀ (es : EdgeList) (eid x y : String),
      hasEdgeB (foldPairs es eid ps) x y = true ↔
        (hasEdgeB es x y = true ∨ ∃ p ∈ ps, pairEq p (x, y) = true) := by
  induction ps with
  | nil => intro es eid x y; simp [foldPairs]
  | cons p rest ih =>
    intro es eid x y
    rw [foldPairs_cons, ih, hasEdgeB_addPair_iff]
    have hpp : pairEq (p.1, p.2) (x, y) = pairEq p (x, y) := rfl
    simp only [List.mem_cons, hpp]
    constructor
    · rintro ((h | h1) | ⟨q, hq, he⟩)
      · exact Or.inl h
      · exact Or.inr ⟨p, Or.inl rfl, h1⟩
      · exact Or.inr ⟨q, Or.inr hq, he⟩
    · rintro (h | ⟨q, hq | hq, he⟩)
      · exact Or.inl (Or.inl h)
      · subst hq
        exact Or.inl (Or.inr he)
      · exact Or.inr ⟨q, hq, he⟩

theorem processGroup_eq_foldPairs (es : EdgeList) (eid : String) (sids : List String) :
    processGroup es eid sids = foldPairs es eid (pairsOf sids) := by
  rcases sids with _ | ⟨a, _ | ⟨b, _ | ⟨c, rest⟩⟩⟩ <;> rfl

theorem pairsOf_mem_of {sids : List String} {x y : String} (hx : x ∈ sids) (hy : y ∈ sids)
    (hxy : x ≠ y) : ∃ p ∈ pairsOf sids, pairEq p (x, y) = true := by
  induction sids with
  | nil => simp at hx
  | cons s rest ih =>
    rcases List.mem_cons.1 hx with rfl | hx2
    · have hy2 : y ∈ rest := by
        rcases List.mem_cons.1 hy with rfl | h
        · exact absurd rfl hxy
        · exact h
      refine ⟨(x, y), ?_, pairEq_refl _⟩
      simp only [pairsOf, List.mem_append, List.mem_map]
      exact Or.inl ⟨y, hy2, rfl⟩
    · rcases List.mem_cons.1 hy with rfl | hy2
      · refine ⟨(y, x), ?_, by rw [← pairEq_swap]; exact pairEq_refl _⟩
        simp only [pairsOf, List.mem_append, List.mem_map]
        exact Or.inl ⟨x, hx2, rfl⟩
      · obtain ⟨p, hp, he⟩ := ih hx2 hy2
        refine ⟨p, ?_, he⟩
        simp only [pairsOf, List.mem_append]
        exact Or.inr hp

theorem pairsOf_pairEq_mem {sids : List String} {x y : String} (hnd : sids.Nodup)
    (h : ∃ p ∈ pairsOf sids, pairEq p (x, y) = true) : x ∈ sids ∧ y ∈ sids ∧ x ≠ y := by
  induction sids with
  | nil => simp [pairsOf] at h
  | cons s rest ih =>
    have hs : s ∉ rest := (List.nodup_cons.1 hnd).1
    have hr : rest.Nodup := (List.nodup_cons.1 hnd).2
    obtain ⟨p, hp, he⟩ := h
    simp only [pairsOf, List.mem_append, List.mem_map] at hp
    rcases hp with ⟨t, ht, rfl⟩ | hp2
    · have hst : s ≠ t := fun hst => hs (hst ▸ ht)
      rcases pairEq_iff.1 he with ⟨h1, h2⟩ | ⟨h1, h2⟩
      · simp only at h1 h2
        subst h1; subst h2
        exact ⟨List.mem_cons_self _ _, List.mem_cons_of_mem _ ht, hst⟩
      · simp only at h1 h2
        subst h1; subst h2
        exact ⟨List.mem_cons_of_mem _ ht, List.mem_cons_self _ _, fun hh => hst hh.symm⟩
    · obtain ⟨h1, h2, h3⟩ := ih hr ⟨p, hp2, he⟩
      exact ⟨List.mem_cons_of_mem _ h1, List.mem_cons_of_mem _ h2, h3⟩

theorem resolveAdjacency_cons (es : EdgeList) (g : String × List String)
    (rest : List (String × List String)) :
    resolveAdjacency es (g :: rest) = resolveAdjacency (processGroup es g.1 g.2) rest := rfl

theorem InSameGroup_cons {g : String × List String} {rest : List (String × List String)}
    {eid a b : String} :
    InSameGroup (g :: rest) eid a b ↔
      (g.1 = eid ∧ a ∈ g.2 ∧ b ∈ g.2) ∨ InSameGroup rest eid a b := by
  constructor
  · rintro ⟨g2, hg2, hprop⟩
    rcases List.mem_cons.1 hg2 with rfl | hg3
    · exact Or.inl hprop
    · exact Or.inr ⟨g2, hg3, hprop⟩
  · rintro (hprop | ⟨g2, hg2, hprop⟩)
    · exact ⟨g, List.mem_cons_self _ _, hprop⟩
    · exact ⟨g2, List.mem_cons_of_mem _ hg2, hprop⟩

theorem viaMem_resolve_iff (gs : List (String × List String)) :
    ∀ (es : EdgeList), (∀ g ∈ gs, g.2.Nodup) → ∀ x y f : String,
      viaMem (resolveAdjacency es gs) x y f = true ↔
        (viaMem es x y f = true ∨ (InSameGroup gs f x y ∧ x ≠ y)) := by
  induction gs with
  | nil =>
    intro es _ x y f
    simp [resolveAdjacency, InSameGroup]
  | cons g rest ih =>
    intro es hnd x y f
    have h1 : g.2.Nodup := hnd g (List.mem_cons_self _ _)
    have h2 : ∀ g2 ∈ rest, g2.2.Nodup := fun g2 hg2 => hnd g2 (List.mem_cons_of_mem _ hg2)
    rw [resolveAdjacency_cons, ih _ h2, processGroup_eq_foldPairs,
      viaMem_foldPairs_iff, InSameGroup_cons]
    have hpair : (∃ p ∈ pairsOf g.2, pairEq p (x, y) = true) ↔ (x ∈ g.2 ∧ y ∈ g.2 ∧ x ≠ y) :=
      ⟨fun h => pairsOf_pairEq_mem h1 h, fun h => pairsOf_mem_of h.1 h.2.1 h.2.2⟩
    rw [hpair]
    constructor
    · rintro ((h | ⟨⟨hx, hy, hne⟩, rfl⟩) | ⟨hin, hne⟩)
      · exact Or.inl h
      · exact Or.inr ⟨Or.inl ⟨rfl, hx, hy⟩, hne⟩
      · exact Or.inr ⟨Or.inr hin, hne⟩
    · rintro (h | ⟨⟨hgf, hx, hy⟩ | hin, hne⟩)
      · exact Or.inl (Or.inl h)
      · exact Or.inl (Or.inr ⟨⟨hx, hy, hne⟩, hgf.symm⟩)
      · exact Or.inr ⟨hin, hne⟩

theorem hasEdgeB_resolve_iff (gs : List (String × List String)) :
    ∀ (es : EdgeList), (∀ g ∈ gs, g.2.Nodup) → ∀ x y : String,
      hasEdgeB (resolveAdjacency es gs) x y = true ↔
        (hasEdgeB es x y = true ∨ ((∃ eid, InSameGroup gs eid x y) ∧ x ≠ y)) := by
  induction gs with
  | nil =>
    intro es _ x y
    simp [resolveAdjacency, InSameGroup]
  | cons g rest ih =>
    intro es hnd x y
    have h1 : g.2.Nodup := hnd g (List.mem_cons_self _ _)
    have h2 : ∀ g2 ∈ rest, g2.2.Nodup := fun g2 hg2 => hnd g2 (List.mem_cons_of_mem _ hg2)
    rw [resolveAdjacency_cons, ih _ h2, processGroup_eq_foldPairs, hasEdgeB_foldPairs_iff]
    have hpair : (∃ p ∈ pairsOf g.2, pairEq p (x, y) = true) ↔ (x ∈ g.2 ∧ y ∈ g.2 ∧ x ≠ y) :=
      ⟨fun h => pairsOf_pairEq_mem h1 h, fun h => pairsOf_mem_of h.1 h.2.1 h.2.2⟩
    rw [hpair]
    constructor
    · rintro ((h | ⟨hx, hy, hne⟩) | ⟨⟨eid, hin⟩, hne⟩)
      · exact Or.inl h
      · exact Or.inr ⟨⟨g.1, (InSameGroup_cons (g := g)).2 (Or.inl ⟨rfl, hx, hy⟩)⟩, hne⟩
      · exact Or.inr ⟨⟨eid, (InSameGroup_cons (g := g)).2 (Or.inr hin)⟩, hne⟩
    · rintro (h | ⟨⟨eid, hin⟩, hne⟩)
      · exact Or.inl (Or.inl h)
      · rcases (InSameGroup_cons (g := g)).1 hin with ⟨_, hx, hy⟩ | hin2
        · exact Or.inl (Or.inr ⟨hx, hy, hne⟩)
        · exact Or.inr ⟨⟨eid, hin2⟩, hne⟩

theorem addPair_no_op {es : EdgeList} {eid a b : String} (h : viaMem es a b eid = true) :
    addPair es eid a b = es := by
  obtain ⟨vs, hf, hm⟩ := viaMem_iff.1 h
  unfold addPair
  rw [hf]
  simp [hm]

theorem foldPairs_no_op {es : EdgeList} {eid : String} :
    ∀ ps : List (String × String), (∀ p ∈ ps, viaMem es p.1 p.2 eid = true) →
      foldPairs es eid ps = es := by
  intro ps
  induction ps with
  | nil => intro _; rfl
  | cons p rest ih =>
    intro h
    rw [foldPairs_cons, addPair_no_op (h p (List.mem_cons_self _ _))]
    exact ih fun q hq => h q (List.mem_cons_of_mem _ hq)

theorem viaMem_foldPairs_self {es : EdgeList} {eid : String} {ps : List (String × String)}
    {p : String × String} (hp : p ∈ ps) : viaMem (foldPairs es eid ps) p.1 p.2 eid = true :=
  (viaMem_foldPairs_iff ps es eid p.1 p.2 eid).2 (Or.inr ⟨⟨p, hp, pairEq_refl p⟩, rfl⟩)

theorem viaMem_resolve_mono {gs : List (String × List String)} :
    ∀ {es : EdgeList} {x y f : String}, viaMem es x y f = true →
      viaMem (resolveAdjacency es gs) x y f = true := by
  induction gs with
  | nil => intro es x y f h; exact h
  | cons g rest ih =>
    intro es x y f h
    rw [resolveAdjacency_cons]
    apply ih
    rw [processGroup_eq_foldPairs]
    exact (viaMem_foldPairs_iff _ es g.1 x y f).2 (Or.inl h)

theorem resolve_establishes (gs : List (String × List String)) :
    ∀ (es : EdgeList), ∀ g ∈ gs, ∀ p ∈ pairsOf g.2,
      viaMem (resolveAdjacency es gs) p.1 p.2 g.1 = true := by
  induction gs with
  | nil => intro es g hg; simp at hg
  | cons g0 rest ih =>
    intro es g hg p hp
    rcases List.mem_cons.1 hg with rfl | hg2
    · rw [resolveAdjacency_cons]
      apply viaMem_resolve_mono
      rw [processGroup_eq_foldPairs]
      exact viaMem_foldPairs_self hp
    · rw [resolveAdjacency_cons]
      exact ih _ g hg2 p hp

theorem resolve_no_op (gs : List (String × List String)) :
    ∀ es : EdgeList, (∀ g ∈ gs, ∀ p ∈ pairsOf g.2, viaMem es p.1 p.2 g.1 = true) →
      resolveAdjacency es gs = es := by
  induction gs with
  | nil => intro es _; rfl
  | cons g rest ih =>
    intro es h
    rw [resolveAdjacency_cons, processGroup_eq_foldPairs,
      foldPairs_no_op _ (h g (List.mem_cons_self _ _))]
    exact ih es fun g2 hg2 => h g2 (List.mem_cons_of_mem _ hg2)

theorem updateVias_filter_length (es : EdgeList) (a b x y : String) (vs : List String) :
    ((updateVias es a b vs).filter (fun e => pairEq e.1 (x, y))).length =
      (es.filter (fun e => pairEq e.1 (x, y))).length := by
  induction es with
  | nil => rfl
  | cons e rest ih =>
    by_cases hab : pairEq e.1 (a, b) = true <;>
      by_cases hxy : pairEq e.1 (x, y) = true <;>
        simp [updateVias, List.filter, hab, hxy, ih]

theorem mem_updateVias {es : EdgeList} {a b : String} {vs : List String}
    {e : (String × String) × List String} (he : e ∈ updateVias es a b vs) :
    e ∈ es ∨ e.2 = vs := by
  induction es with
  | nil => simp [updateVias] at he
  | cons e0 rest ih =>
    simp only [updateVias, List.mem_cons] at he
    rcases he with rfl | he2
    · by_cases hab : pairEq e0.1 (a, b) = true
      · simp [hab]
      · simp only [hab, Bool.false_eq_true, if_false]
        exact Or.inl (List.mem_cons_self _ _)
    · rcases ih he2 with h | h
      · exact Or.inl (List.mem_cons_of_mem _ h)
      · exact Or.inr h

theorem findVias_nodup {es : EdgeList} {a b : String} {vs : List String}
    (hn : ViasNodup es) (hf : findVias es a b = some vs) : vs.Nodup := by
  obtain ⟨k, hm⟩ := mem_of_findVias hf
  exact hn (k, vs) hm

theorem addPair_noDupPairs {es : EdgeList} (h : NoDupPairEdges es) (eid a b : String) :
    NoDupPairEdges (addPair es eid a b) := by
  unfold addPair
  cases hf : findVias es a b with
  | none =>
    intro x y
    rw [List.filter_append, List.length_append]
    by_cases hp : pairEq (a, b) (x, y) = true
    · have hnone : findVias es x y = none := by rw [findVias_congr hp, hf]
      have hz : (es.filter (fun e => pairEq e.1 (x, y))).length = 0 := by
        rw [List.length_eq_zero]
        rw [List.filter_eq_nil_iff]
        intro e he
        simp [findVias_eq_none_iff.1 hnone e he]
      rw [hz]
      simp [List.filter, hp]
    · have := h x y
      simp [List.filter, hp]
      omega
  | some vs =>
    by_cases hc : eid ∈ vs
    · simpa [hc] using h
    · simp only [List.contains, List.elem_eq_mem, hc, decide_False, Bool.false_eq_true, if_false]
      intro x y
      rw [updateVias_filter_length]
      exact h x y

theorem addPair_viasNodup {es : EdgeList} (h : ViasNodup es) {eid a b : String}
    (hnew : ∀ vs, findVias es a b = some vs → eid ∉ vs → (vs ++ [eid]).Nodup) :
    ViasNodup (addPair es eid a b) := by
  unfold addPair
  cases hf : findVias es a b with
  | none =>
    intro e he
    rcases List.mem_append.1 he with h1 | h1
    · exact h e h1
    · rcases List.mem_singleton.1 h1 with rfl
      simp
  | some vs =>
    by_cases hc : eid ∈ vs
    · simpa [hc] using h
    · simp [hc]
      intro e he
      rcases mem_updateVias he with h1 | h1
      · exact h e h1
      · rw [h1]
        exact hnew vs hf hc

theorem addPair_invariant {es : EdgeList} (h : EdgeInvariant es) (eid a b : String) :
    EdgeInvariant (addPair es eid a b) := by
  refine ⟨addPair_noDupPairs h.1 eid a b, addPair_viasNodup h.2 ?_⟩
  intro vs hf hm
  rw [List.nodup_append]
  exact ⟨findVias_nodup h.2 hf, List.nodup_singleton _,
    fun x hx hx2 => hm ((List.mem_singleton.1 hx2) ▸ hx)⟩

theorem foldPairs_invariant {eid : String} (ps : List (String × String)) :
    ∀ {es : EdgeList}, EdgeInvariant es → EdgeInvariant (foldPairs es eid ps) := by
  induction ps with
  | nil => intro es h; exact h
  | cons p rest ih =>
    intro es h
    rw [foldPairs_cons]
    exact ih (addPair_invariant h eid p.1 p.2)

theorem resolveAdjacency_invariant (gs : List (String × List String)) :
    ∀ {es : EdgeList}, EdgeInvariant es → EdgeInvariant (resolveAdjacency es gs) := by
  induction gs with
  | nil => intro es h; exact h
  | cons g rest ih =>
    intro es h
    rw [resolveAdjacency_cons]
    apply ih
    rw [processGroup_eq_foldPairs]
    exact foldPairs_invariant _ h

theorem addPair_append_new {es : EdgeList} {eid a b : String} {vs : List String}
    (hf : findVias es a b = some vs) (hn : eid ∉ vs) :
    findVias (addPair es eid a b) a b = some (vs ++ [eid]) := by
  rw [findVias_addPair, if_pos (pairEq_refl _), hf]
  simp [hn]

theorem addPair_same_eid {es : EdgeList} {eid a b : String} {vs : List String}
    (hf : findVias es a b = some vs) (hm : eid ∈ vs) :
    addPair es eid a b = es := by
  unfold addPair
  rw [hf]
  simp [hm]

/-- Claim C2: for every boundary group with more than two member spaces the
resolver creates or updates an ADJACENT edge for every unordered pair of
members (full pairwise closure, regardless of corridor-like members, whose
classification is computed but never branches), with create-or-append
via-list semantics; every group with fewer than two members produces no
edges; and the group {A, B, C} under element E yields exactly the three
edges (A,B), (A,C), (B,C), each with via list [E]. -/
theorem adjacency_full_pairwise_closure (es : EdgeList) (eid : String) (sids : List String)
    (a b : String) (hlen : 2 < sids.length) (ha : a ∈ sids) (hb : b ∈ sids) (hab : a ≠ b) :
    (hasEdgeB (processGroup es eid sids) a b = true ∧
      viaMem (processGroup es eid sids) a b eid = true) ∧
    (∀ (es2 : EdgeList) (eid2 : String) (sids2 : List String), sids2.length < 2 →
      processGroup es2 eid2 sids2 = es2) ∧
    resolveAdjacency [] [("E", ["A", "B", "C"])] =
      [(("A", "B"), ["E"]), (("A", "C"), ["E"]), (("B", "C"), ["E"])] := by
  refine ⟨⟨?_, ?_⟩, ?_, ?_⟩
  · rw [processGroup_eq_foldPairs]
    exact (hasEdgeB_foldPairs_iff _ _ _ _ _).2 (Or.inr (pairsOf_mem_of ha hb hab))
  · rw [processGroup_eq_foldPairs]
    obtain ⟨p, hp, he⟩ := pairsOf_mem_of ha hb hab
    exact (viaMem_foldPairs_iff _ _ _ _ _ _).2 (Or.inr ⟨⟨p, hp, he⟩, rfl⟩)
  · intro es2 eid2 sids2 hlt
    rcases sids2 with _ | ⟨x, _ | ⟨y, rest⟩⟩
    · rfl
    · rfl
    · exact absurd hlt (by simp)
  · rfl

theorem adjacency_full_pairwise_closure_witness :
    (2 < (["A", "B", "C", "D"] : List String).length ∧
      ("A" : String) ∈ (["A", "B", "C", "D"] : List String) ∧
      ("C" : String) ∈ (["A", "B", "C", "D"] : List String) ∧ ("A" : String) ≠ "C") ∧
    viaMem (processGroup [] "E" ["A", "B", "C", "D"]) "A" "C" "E" = true :=
  ⟨⟨by decide, by decide, by decide, by decide⟩,
    (adjacency_full_pairwise_closure [] "E" ["A", "B", "C", "D"] "A" "C"
      (by decide) (by decide) (by decide) (by decide)).1.2⟩

/-- Claim C3: every create-or-append step of the adjacency resolver
preserves the invariant that at most one adjacency edge exists per
unordered space pair and that every via list is duplicate-free (hence so
does the whole resolver run); rediscovering a pair through a new element
appends that element to the via list, and rediscovering it through an
element already recorded leaves the store unchanged with that element
occurring in the via list exactly once. -/
theorem adjacency_invariant_step (es : EdgeList) (eid a b : String) (h : EdgeInvariant es) :
    EdgeInvariant (addPair es eid a b) ∧
    (∀ gs : List (String × List String), EdgeInvariant (resolveAdjacency es gs)) ∧
    (∀ vs : List String, findVias es a b = some vs → eid ∉ vs →
      findVias (addPair es eid a b) a b = some (vs ++ [eid])) ∧
    (∀ vs : List String, findVias es a b = some vs → eid ∈ vs →
      addPair es eid a b = es ∧ vs.count eid = 1) := by
  refine ⟨addPair_invariant h eid a b, fun gs => resolveAdjacency_invariant gs h,
    fun vs hf hn => addPair_append_new hf hn, fun vs hf hm => ⟨addPair_same_eid hf hm, ?_⟩⟩
  exact List.count_eq_one_of_mem (findVias_nodup h.2 hf) hm

theorem adjacency_invariant_step_witness :
    EdgeInvariant [(("A", "B"), ["e1"])] ∧
    EdgeInvariant (addPair [(("A", "B"), ["e1"])] "e2" "A" "B") := by
  have h : EdgeInvariant [(("A", "B"), ["e1"])] := by
    constructor
    · intro a b
      exact List.length_filter_le _ _
    · intro e he
      rcases List.mem_singleton.1 he with rfl
      decide
  exact ⟨h, (adjacency_invariant_step _ "e2" "A" "B" h).1⟩

/-- Claim C5: adjacency resolution is deterministic up to traversal order:
two boundary-group lists presenting the same element-to-member-set mapping
(in any order, with members in any order) resolve to the same edge set,
and to the same via set on every edge; in particular edge existence does
not depend on whether a pair is discovered as (A,B) or (B,A). -/
theorem adjacency_resolver_deterministic (es : EdgeList)
    (gs1 gs2 : List (String × List String))
    (h1 : ∀ g ∈ gs1, g.2.Nodup) (h2 : ∀ g ∈ gs2, g.2.Nodup)
    (hsame : ∀ eid a b : String, InSameGroup gs1 eid a b ↔ InSameGroup gs2 eid a b) :
    (∀ a b : String, hasEdgeB (resolveAdjacency es gs1) a b =
      hasEdgeB (resolveAdjacency es gs2) a b) ∧
    (∀ a b f : String, viaMem (resolveAdjacency es gs1) a b f =
      viaMem (resolveAdjacency es gs2) a b f) := by
  constructor
  · intro a b
    apply bool_eq_of_iff
    rw [hasEdgeB_resolve_iff gs1 es h1 a b, hasEdgeB_resolve_iff gs2 es h2 a b]
    simp only [hsame]
  · intro a b f
    apply bool_eq_of_iff
    rw [viaMem_resolve_iff gs1 es h1 a b f, viaMem_resolve_iff gs2 es h2 a b f]
    simp only [hsame]

theorem adjacency_resolver_deterministic_witness :
    viaMem (resolveAdjacency [] [("e", ["A", "B"])]) "A" "B" "e" =
      viaMem (resolveAdjacency [] [("e", ["B", "A"])]) "A" "B" "e" := by
  have h1 : ∀ g ∈ [(("e" : String), (["A", "B"] : List String))], g.2.Nodup := by decide
  have h2 : ∀ g ∈ [(("e" : String), (["B", "A"] : List String))], g.2.Nodup := by decide
  have hmem : ∀ x : String, x ∈ (["A", "B"] : List String) ↔ x ∈ (["B", "A"] : List String) := by
    intro x
    simp [or_comm]
  have hsame : ∀ eid a b : String,
      InSameGroup [("e", ["A", "B"])] eid a b ↔ InSameGroup [("e", ["B", "A"])] eid a b := by
    intro eid a b
    constructor
    · rintro ⟨g, hgm, hg1, hga, hgb⟩
      rcases List.mem_singleton.1 hgm with rfl
      exact ⟨("e", ["B", "A"]), List.mem_singleton.2 rfl, hg1, (hmem a).1 hga, (hmem b).1 hgb⟩
    · rintro ⟨g, hgm, hg1, hga, hgb⟩
      rcases List.mem_singleton.1 hgm with rfl
      exact ⟨("e", ["A", "B"]), List.mem_singleton.2 rfl, hg1, (hmem a).2 hga, (hmem b).2 hgb⟩
  exact (adjacency_resolver_deterministic [] _ _ h1 h2 hsame).2 "A" "B" "e"

/-- Claim C8: running the adjacency resolver a second time on the same
boundary-group mapping over the graph produced by the first run leaves the
edge store literally unchanged; in particular the edge set and every
edge's via set are identical. -/
theorem adjacency_resolver_idempotent (es : EdgeList) (gs : List (String × List String)) :
    resolveAdjacency (resolveAdjacency es gs) gs = resolveAdjacency es gs ∧
    (∀ a b : String, hasEdgeB (resolveAdjacency (resolveAdjacency es gs) gs) a b =
      hasEdgeB (resolveAdjacency es gs) a b) ∧
    (∀ a b f : String, viaMem (resolveAdjacency (resolveAdjacency es gs) gs) a b f =
      viaMem (resolveAdjacency es gs) a b f) := by
  have h : resolveAdjacency (resolveAdjacency es gs) gs = resolveAdjacency es gs :=
    resolve_no_op gs _ (fun g hg p hp => resolve_establishes gs es g hg p hp)
  exact ⟨h, fun a b => by rw [h], fun a b f => by rw [h]⟩

/-! ## Lemmas about the boundary aggregator and the checked resolver -/

theorem corridor_spaces_isSome (nodes : List (String × List (String × String))) :
    ∀ sids : List String, (corridor_spaces nodes sids).isSome = true ↔
      ∀ sid ∈ sids, (lookupNodeName nodes sid).isSome = true := by
  intro sids
  induction sids with
  | nil => simp [corridor_spaces]
  | cons s rest ih =>
    simp only [corridor_spaces]
    cases hl : lookupNodeName nodes s with
    | none => simp [hl]
    | some n =>
      cases hr : corridor_spaces nodes rest with
      | none =>
        rw [hr] at ih
        simp only [List.forall_mem_cons, hl]
        simp [← ih]
      | some r =>
        rw [hr] at ih
        simp only [List.forall_mem_cons, hl]
        simp [← ih]

theorem resolveAdjacencyChecked_isSome (nodes : List (String × List (String × String))) :
    ∀ (gs : List (String × List String)) (es : EdgeList),
      (resolveAdjacencyChecked nodes es gs).isSome = true ↔
        ∀ g ∈ gs, ∀ sid ∈ g.2, (lookupNodeName nodes sid).isSome = true := by
  intro gs
  induction gs with
  | nil =>
    intro es
    simp [resolveAdjacencyChecked]
  | cons g rest ih =>
    intro es
    simp only [resolveAdjacencyChecked, processGroupChecked]
    cases hc : corridor_spaces nodes g.2 with
    | none =>
      have h1 : ¬ ∀ sid ∈ g.2, (lookupNodeName nodes sid).isSome = true := by
        rw [← corridor_spaces_isSome nodes g.2, hc]
        simp
      simp only [List.forall_mem_cons]
      constructor
      · intro h
        simp at h
      · rintro ⟨hg, _⟩
        exact absurd hg h1
    | some cs =>
      have h1 : ∀ sid ∈ g.2, (lookupNodeName nodes sid).isSome = true := by
        rw [← corridor_spaces_isSome nodes g.2, hc]
        rfl
      show (resolveAdjacencyChecked nodes (processGroup es g.1 g.2) rest).isSome = true ↔
        ∀ g2 ∈ g :: rest, ∀ sid ∈ g2.2, (lookupNodeName nodes sid).isSome = true
      rw [ih (processGroup es g.1 g.2), List.forall_mem_cons]
      exact ⟨fun h => ⟨h1, h⟩, fun h => h.2⟩

theorem resolveAdjacencyChecked_eq (nodes : List (String × List (String × String))) :
    ∀ (gs : List (String × List String)) (es : EdgeList),
      (∀ g ∈ gs, ∀ sid ∈ g.2, (lookupNodeName nodes sid).isSome = true) →
        resolveAdjacencyChecked nodes es gs = some (resolveAdjacency es gs) := by
  intro gs
  induction gs with
  | nil =>
    intro es _
    rfl
  | cons g rest ih =>
    intro es h
    have hg : (corridor_spaces nodes g.2).isSome = true :=
      (corridor_spaces_isSome nodes g.2).2 (h g (List.mem_cons_self _ _))
    cases hc : corridor_spaces nodes g.2 with
    | none =>
      rw [hc] at hg
      simp at hg
    | some cs =>
      simp only [resolveAdjacencyChecked, processGroupChecked, hc]
      rw [resolveAdjacency_cons]
      exact ih _ fun g2 hg2 => h g2 (List.mem_cons_of_mem _ hg2)

theorem addToGroups_mem (gs : List (String × List String)) (eid sid e s : String) :
    (∃ g ∈ addToGroups gs eid sid, g.1 = e ∧ s ∈ g.2) ↔
      ((∃ g ∈ gs, g.1 = e ∧ s ∈ g.2) ∨ (e = eid ∧ s = sid)) := by
  induction gs with
  | nil =>
    constructor
    · rintro ⟨g, hg, h1, h2⟩
      rcases List.mem_singleton.1 hg with rfl
      rcases List.mem_singleton.1 h2 with rfl
      exact Or.inr ⟨h1.symm, rfl⟩
    · rintro (⟨g, hg, _⟩ | ⟨he1, hs1⟩)
      · exact absurd hg (List.not_mem_nil g)
      · exact ⟨(eid, [sid]), List.mem_singleton.2 rfl, he1.symm,
          by rw [hs1]; exact List.mem_singleton.2 rfl⟩
  | cons g0 rest ih =>
    rcases g0 with ⟨e0, ss0⟩
    by_cases he : e0 = eid
    · subst he
      have hif : addToGroups ((e0, ss0) :: rest) e0 sid =
          (e0, if ss0.contains sid then ss0 else ss0 ++ [sid]) :: rest := by
        simp [addToGroups]
      rw [hif]
      have hmem : ∀ x : String,
          (x ∈ (if ss0.contains sid then ss0 else ss0 ++ [sid])) ↔ (x ∈ ss0 ∨ x = sid) := by
        intro x
        by_cases hcont : sid ∈ ss0
        · rw [if_pos (contains_iff_mem.2 hcont)]
          constructor
          · exact Or.inl
          · rintro (h | rfl)
            · exact h
            · exact hcont
        · have hcf : ss0.contains sid = false :=
            Bool.eq_false_iff.2 fun hb => hcont (contains_iff_mem.1 hb)
          rw [hcf]
          simp
      constructor
      · rintro ⟨g, hgm, h1, h2⟩
        rcases List.mem_cons.1 hgm with rfl | hgr
        · rcases (hmem s).1 h2 with hs | hs
          · exact Or.inl ⟨(e0, ss0), List.mem_cons_self _ _, h1, hs⟩
          · exact Or.inr ⟨h1.symm, hs⟩
        · exact Or.inl ⟨g, List.mem_cons_of_mem _ hgr, h1, h2⟩
      · rintro (⟨g, hgm, h1, h2⟩ | ⟨he1, hs1⟩)
        · rcases List.mem_cons.1 hgm with rfl | hgr
          · exact ⟨(e0, if ss0.contains sid then ss0 else ss0 ++ [sid]),
              List.mem_cons_self _ _, h1, (hmem s).2 (Or.inl h2)⟩
          · exact ⟨g, List.mem_cons_of_mem _ hgr, h1, h2⟩
        · exact ⟨(e0, if ss0.contains sid then ss0 else ss0 ++ [sid]),
            List.mem_cons_self _ _, he1.symm, (hmem s).2 (Or.inr hs1)⟩
    · have hne : (e0 == eid) = false :=
        Bool.eq_false_iff.2 fun hb => he (by simpa using hb)
      have hif : addToGroups ((e0, ss0) :: rest) eid sid =
          (e0, ss0) :: addToGroups rest eid sid := by
        simp [addToGroups, hne]
      rw [hif]
      constructor
      · rintro ⟨g, hgm, h1, h2⟩
        rcases List.mem_cons.1 hgm with rfl | hgr
        · exact Or.inl ⟨_, List.mem_cons_self _ _, h1, h2⟩
        · rcases ih.1 ⟨g, hgr, h1, h2⟩ with ⟨g2, hg2, h3, h4⟩ | hr
          · exact Or.inl ⟨g2, List.mem_cons_of_mem _ hg2, h3, h4⟩
          · exact Or.inr hr
      · rintro (⟨g, hgm, h1, h2⟩ | hr)
        · rcases List.mem_cons.1 hgm with rfl | hgr
          · exact ⟨_, List.mem_cons_self _ _, h1, h2⟩
          · obtain ⟨g2, hg2, h3, h4⟩ := ih.2 (Or.inl ⟨g, hgr, h1, h2⟩)
            exact ⟨g2, List.mem_cons_of_mem _ hg2, h3, h4⟩
        · obtain ⟨g2, hg2, h3, h4⟩ := ih.2 (Or.inr hr)
          exact ⟨g2, List.mem_cons_of_mem _ hg2, h3, h4⟩

theorem element_to_spaces_mem (rels : List BoundaryRel) (e s : String) :
    (∃ g ∈ element_to_spaces rels, g.1 = e ∧ s ∈ g.2) ↔
      (∃ r ∈ rels, r.relatingSpace = some s ∧ boundaryKey r = e) := by
  suffices h : ∀ gs0 : List (String × List String),
      (∃ g ∈ rels.foldl (fun gs r =>
          match r.relatingSpace with
          | none => gs
          | some sid => addToGroups gs (boundaryKey r) sid) gs0, g.1 = e ∧ s ∈ g.2) ↔
        ((∃ g ∈ gs0, g.1 = e ∧ s ∈ g.2) ∨
          ∃ r ∈ rels, r.relatingSpace = some s ∧ boundaryKey r = e) by
    have h2 := h []
    rw [element_to_spaces]
    rw [h2]
    constructor
    · rintro (⟨g, hg, _⟩ | hr)
      · exact absurd hg (List.not_mem_nil g)
      · exact hr
    · exact Or.inr
  induction rels with
  | nil =>
    intro gs0
    constructor
    · exact Or.inl
    · rintro (h | ⟨r, hr, _⟩)
      · exact h
      · exact absurd hr (List.not_mem_nil r)
  | cons r rest ih =>
    intro gs0
    rw [List.foldl_cons]
    cases hr : r.relatingSpace with
    | none =>
      simp only [hr]
      rw [ih gs0]
      constructor
      · rintro (h | ⟨r2, hr2, h3⟩)
        · exact Or.inl h
        · exact Or.inr ⟨r2, List.mem_cons_of_mem _ hr2, h3⟩
      · rintro (h | ⟨r2, hr2, h3, h4⟩)
        · exact Or.inl h
        · rcases List.mem_cons.1 hr2 with rfl | hr3
          · rw [hr] at h3
            cases h3
          · exact Or.inr ⟨r2, hr3, h3, h4⟩
    | some sid =>
      simp only [hr]
      rw [ih (addToGroups gs0 (boundaryKey r) sid), addToGroups_mem]
      constructor
      · rintro ((h | ⟨he1, hs1⟩) | ⟨r2, hr2, h3⟩)
        · exact Or.inl h
        · exact Or.inr ⟨r, List.mem_cons_self _ _, by rw [hr, hs1], he1.symm⟩
        · exact Or.inr ⟨r2, List.mem_cons_of_mem _ hr2, h3⟩
      · rintro (h | ⟨r2, hr2, h3, h4⟩)
        · exact Or.inl (Or.inl h)
        · rcases List.mem_cons.1 hr2 with rfl | hr3
          · rw [hr] at h3
            injection h3 with h5
            exact Or.inl (Or.inr ⟨h4.symm, h5.symm⟩)
          · exact Or.inr ⟨r2, hr3, h3, h4⟩

/-- Claim C10: the checked adjacency loop — the corridor classification of
line 288 reads every boundary-group member's `name` from the graph's node
attributes without verifying membership, and the boundary aggregator
accepts any resolvable relating space — completes without fault exactly
when every accumulated member identity has a stored `name` attribute (was
previously added as a space node); under that precondition it computes the
plain resolver's result, and otherwise it faults (`none`), aborting the
pass.  The third conjunct characterizes the aggregator: an identity enters
a boundary group exactly when some relationship resolves it as the
relating space, with no space-entity check. -/
theorem resolver_requires_space_nodes (nodes : List (String × List (String × String)))
    (es : EdgeList) (gs : List (String × List String)) :
    ((resolveAdjacencyChecked nodes es gs).isSome = true ↔
      ∀ g ∈ gs, ∀ sid ∈ g.2, (lookupNodeName nodes sid).isSome = true) ∧
    ((∀ g ∈ gs, ∀ sid ∈ g.2, (lookupNodeName nodes sid).isSome = true) →
      resolveAdjacencyChecked nodes es gs = some (resolveAdjacency es gs)) ∧
    (∀ (rels : List BoundaryRel) (e s : String),
      (∃ g ∈ element_to_spaces rels, g.1 = e ∧ s ∈ g.2) ↔
        (∃ r ∈ rels, r.relatingSpace = some s ∧ boundaryKey r = e)) :=
  ⟨resolveAdjacencyChecked_isSome nodes gs es,
   resolveAdjacencyChecked_eq nodes gs es,
   element_to_spaces_mem⟩

theorem resolver_requires_space_nodes_witness :
    resolveAdjacencyChecked [("A", [("name", "Office A")])] [] [("E", ["A", "B"])] = none ∧
    resolveAdjacencyChecked
        [("A", [("name", "Office A")]), ("B", [("name", "Hall B")])] [] [("E", ["A", "B"])] =
      some (resolveAdjacency [] [("E", ["A", "B"])]) := by
  constructor
  · have h := (resolver_requires_space_nodes [("A", [("name", "Office A")])] []
      [("E", ["A", "B"])]).1
    have hP : ¬ ∀ g ∈ [(("E" : String), (["A", "B"] : List String))], ∀ sid ∈ g.2,
        (lookupNodeName [("A", [("name", "Office A")])] sid).isSome = true := by decide
    have h2 : ¬ (resolveAdjacencyChecked [("A", [("name", "Office A")])] []
        [("E", ["A", "B"])]).isSome = true := fun hs => hP (h.1 hs)
    exact Option.not_isSome_iff_eq_none.1 h2
  · exact (resolver_requires_space_nodes
      [("A", [("name", "Office A")]), ("B", [("name", "Hall B")])] [] [("E", ["A", "B"])]).2.1
      (by decide)

/-- Claim C9: in the serialized graph every node carries exactly the seven
string-valued attributes ifc_type, name, room_name, GUID, iso, area,
volume, every edge exactly the two string-valued attributes type (whose
value is contains or adjacent whenever the input graph's edges carry those
types, as the builder's do) and vias, a via list is flattened to a
semicolon-joined string, and an absent value (such as vias on a
containment edge, or a node attribute never set) is coerced to the empty
string; the output type carries only plain text. -/
theorem serialization_shape (G : BGraph)
    (htype : ∀ e ∈ G.edges, e.2.etype = "contains" ∨ e.2.etype = "adjacent") :
    (∀ n ∈ (serialize_graphml G).nodes,
      n.2.map Prod.fst = ["ifc_type", "name", "room_name", "GUID", "iso", "area", "volume"]) ∧
    (∀ e ∈ (serialize_graphml G).edges, e.2.map Prod.fst = ["type", "vias"]) ∧
    (∀ e ∈ (serialize_graphml G).edges,
      List.lookup "type" e.2 = some "contains" ∨ List.lookup "type" e.2 = some "adjacent") ∧
    (∀ p d, (p, d) ∈ G.edges →
      (p, [("type", d.etype), ("vias", flatten_vias d.vias)]) ∈ (serialize_graphml G).edges) ∧
    (∀ attrs : List (String × String),
      ∀ k ∈ ["ifc_type", "name", "room_name", "GUID", "iso", "area", "volume"],
        List.lookup k (serialize_node_attrs attrs) = some (safe_str (List.lookup k attrs))) ∧
    flatten_vias none = "" ∧
    (∀ vs, flatten_vias (some vs) = String.intercalate ";" vs) := by
  refine ⟨?_, ?_, ?_, ?_, ?_, rfl, fun vs => rfl⟩
  · intro n hn
    obtain ⟨n0, _, rfl⟩ := List.mem_map.1 hn
    rfl
  · intro e he
    obtain ⟨e0, _, rfl⟩ := List.mem_map.1 he
    rfl
  · intro e he
    obtain ⟨e0, he0, rfl⟩ := List.mem_map.1 he
    rcases htype e0 he0 with h | h
    · exact Or.inl (by rw [← h]; rfl)
    · exact Or.inr (by rw [← h]; rfl)
  · intro p d hpd
    exact List.mem_map.2 ⟨(p, d), hpd, rfl⟩
  · intro attrs k hk
    simp only [List.mem_cons, List.not_mem_nil, or_false] at hk
    rcases hk with rfl | rfl | rfl | rfl | rfl | rfl | rfl
    · rfl
    · rfl
    · rfl
    · rfl
    · rfl
    · rfl
    · rfl

theorem serialization_shape_witness :
    (∀ e ∈ (BGraph.mk [("A", [("name", "x")])]
        [(("A", "B"), EdgeData.mk "contains" none)]).edges,
      e.2.etype = "contains" ∨ e.2.etype = "adjacent") ∧
    (∀ n ∈ (serialize_graphml (BGraph.mk [("A", [("name", "x")])]
        [(("A", "B"), EdgeData.mk "contains" none)])).nodes,
      n.2.map Prod.fst = ["ifc_type", "name", "room_name", "GUID", "iso", "area", "volume"]) :=
  ⟨by decide, (serialization_shape _ (by decide)).1⟩

/-- Claim C1 (a code bug): if the module `ifcopenshellS` that line 22
imports is unavailable — the script's own lines 27 and 379 show the real
package is named `ifcopenshell` — then every run, in particular one whose
model file is missing, halts at that import, never reaching the
file-existence check of line 374 and its diagnostic; and even in an
environment where every imported module resolves, a run whose model file
exists halts with a NameError on the unbound name `ifcopenshell` at line
379 rather than completing.  This contradicts the claim that the missing
input model file is the only condition that aborts the run. -/
theorem startup_import_bug (available : String → Bool)
    (h : available "ifcopenshellS" = false)
    (hrest : ∀ m ∈ ["sys", "os", "re", "collections"], available m = true) :
    (∀ fileExists : Bool,
      runStartup available fileExists = HaltReason.importError "ifcopenshellS") ∧
    runStartup available false ≠ HaltReason.missingFile ∧
    (∀ av2 : String → Bool, (∀ m ∈ topLevelImports, av2 m = true) →
      runStartup av2 true = HaltReason.nameError "ifcopenshell") := by
  have h1 : available "sys" = true := hrest "sys" (by simp)
  have h2 : available "os" = true := hrest "os" (by simp)
  have h3 : available "re" = true := hrest "re" (by simp)
  have h4 : available "collections" = true := hrest "collections" (by simp)
  have hfind : topLevelImports.find? (fun m => !(available m)) = some "ifcopenshellS" := by
    simp [topLevelImports, List.find?, h1, h2, h3, h4, h]
  refine ⟨?_, ?_, ?_⟩
  · intro fe
    simp [runStartup, hfind]
  · simp [runStartup, hfind]
  · intro av2 hall
    have hfind2 : topLevelImports.find? (fun m => !(av2 m)) = none := by
      rw [List.find?_eq_none]
      intro m hm
      simp [hall m hm]
    simp only [runStartup, hfind2]
    decide

theorem startup_import_bug_witness :
    ((fun m => !(m == "ifcopenshellS")) "ifcopenshellS" = false) ∧
    runStartup (fun m => !(m == "ifcopenshellS")) false =
      HaltReason.importError "ifcopenshellS" :=
  ⟨by decide,
    (startup_import_bug (fun m => !(m == "ifcopenshellS")) (by decide) (by decide)).1 false⟩

/-- Claim C4 counterexample: the claimed pattern requires whitespace
between `ISO` and the digits, but the code's regex `\bISO\s*([0-9]+)\b`
allows the whitespace run to be empty: on the name `"ISO7"` the code
extracts `"7"` while the spec-worded pattern (whitespace required,
`extract_iso_spec`) yields the default `"0"`. -/
theorem iso_whitespace_counterexample :
    extract_iso_from_name "ISO7" = "7" ∧ extract_iso_spec "ISO7" = "0" := by
  constructor
  · decide
  · decide

/-- Claim C4 (amended): classification extraction searches the resolved
name for a case-insensitive whole-word pattern `ISO` followed by OPTIONAL
whitespace and one or more digits; a captured digit string in the allowed
set is the code, anything else (including no match) yields `"0"`; hence
every space's classification code lies in the closed set
{"0","5","7","8"} and is never empty. -/
theorem iso_code_closed_set :
    (∀ name : String, extract_iso_from_name name ∈ ISO_ALLOWED) ∧
    (∀ s : SpaceEnt, extract_iso_from_name (clean_space_name s) ∈ ISO_ALLOWED) ∧
    extract_iso_from_name "Office 101 - ISO 7" = "7" ∧
    extract_iso_from_name "ISO7" = "7" ∧
    extract_iso_from_name "Storage" = "0" ∧
    extract_iso_from_name "ISO 78" = "0" ∧
    extract_iso_from_name "" = "0" := by
  have hall : ∀ name : String, extract_iso_from_name name ∈ ISO_ALLOWED := by
    intro name
    unfold extract_iso_from_name
    by_cases h : name == ""
    · simp only [h, if_pos]
      decide
    · have hf : (name == "") = false := Bool.eq_false_iff.2 h
      simp only [hf, Bool.false_eq_true, if_false]
      cases hs : searchIso name.data false with
      | none => decide
      | some ds =>
        by_cases hc : ISO_ALLOWED.contains (String.mk (pyStripList ds)) = true
        · simp only [hc, if_pos]
          exact contains_iff_mem.1 hc
        · have hcf : ISO_ALLOWED.contains (String.mk (pyStripList ds)) = false :=
            Bool.eq_false_iff.2 hc
          simp only [hcf, Bool.false_eq_true, if_false]
          decide
  exact ⟨hall, fun s => hall (clean_space_name s), by decide, by decide, by decide,
    by decide, by decide⟩

theorem fallbackLoop_takeWhile :
    ∀ (rels : List (Except Unit (String × List (String × String)))) (acc : Psets),
      fallbackLoop acc rels = fallbackLoop acc (rels.takeWhile (fun r => r.isOk)) := by
  intro rels
  induction rels with
  | nil => intro acc; rfl
  | cons r rest ih =>
    intro acc
    cases r with
    | error e => rfl
    | ok pr =>
      show fallbackLoop (merge_pset acc pr.1 pr.2) rest =
        fallbackLoop acc (List.takeWhile (fun r => r.isOk) (Except.ok pr :: rest))
      rw [List.takeWhile_cons]
      simp only [Except.isOk, Except.toBool, if_pos]
      exact ih (merge_pset acc pr.1 pr.2)

/-- Claim C6 counterexample: a failure while traversing an entity's
property relationships is NOT always treated as an empty mapping — the
`try/except` of `get_psets_fallback` returns whatever was accumulated
before the fault, so an entity whose second relationship faults after a
first one contributed a property set yields that non-empty partial
mapping. -/
theorem psets_fallback_partial_counterexample :
    get_psets_fallback [Except.ok ("Pset", [("NetFloorArea", "10")]), Except.error ()] =
      [("Pset", [("NetFloorArea", "10")])] ∧
    get_psets_fallback [Except.ok ("Pset", [("NetFloorArea", "10")]), Except.error ()] ≠
      ([] : Psets) := by
  constructor
  · decide
  · decide

/-- Claim C6 (amended): per-entity retrieval failures never abort the
pass: the fallback traversal returns exactly the property sets accumulated
from the relationships before the first fault (an empty mapping when the
fault comes first), a failing or unavailable primary channel falls back to
the manual traversal rather than aborting, and numeric parsing failures
yield an unset value rather than an error. -/
theorem psets_failure_policy
    (rels : List (Except Unit (String × List (String × String))))
    (pfb : List (Except Unit (String × List (String × String)))) :
    (get_psets_fallback rels = get_psets_fallback (rels.takeWhile (fun r => r.isOk))) ∧
    (∀ rest, rels = Except.error () :: rest → get_psets_fallback rels = []) ∧
    (get_all_psets (some (Except.error ())) pfb = get_psets_fallback pfb) ∧
    (get_all_psets none pfb = get_psets_fallback pfb) ∧
    safe_float "abc" = none ∧ safe_float "" = none := by
  refine ⟨fallbackLoop_takeWhile rels [], ?_, rfl, rfl, by decide, by decide⟩
  intro rest h
  rw [h]
  rfl

theorem psets_failure_policy_witness :
    get_psets_fallback [Except.error (), Except.ok ("P", [("a", "1")])] = ([] : Psets) :=
  (psets_failure_policy [Except.error (), Except.ok ("P", [("a", "1")])] []).2.1
    [Except.ok ("P", [("a", "1")])] rfl

theorem foldl_max_spec (t : List ℚ) :
    ∀ c : ℚ, (t.foldl max c = c ∨ t.foldl max c ∈ t) ∧ c ≤ t.foldl max c ∧
      ∀ x ∈ t, x ≤ t.foldl max c := by
  induction t with
  | nil =>
    intro c
    exact ⟨Or.inl rfl, le_refl c, by simp⟩
  | cons r t2 ih =>
    intro c
    obtain ⟨hmem, hle, hall⟩ := ih (max c r)
    rw [List.foldl_cons]
    refine ⟨?_, le_trans (le_max_left c r) hle, ?_⟩
    · rcases hmem with h | h
      · rcases max_choice c r with hm | hm
        · exact Or.inl (h.trans hm)
        · exact Or.inr (by rw [h, hm]; exact List.mem_cons_self _ _)
      · exact Or.inr (List.mem_cons_of_mem _ h)
    · intro x hx
      rcases List.mem_cons.1 hx with rfl | hx2
      · exact le_trans (le_max_right c x) hle
      · exact hall x hx2

theorem pick_best_numeric_spec {l : List ℚ} {m : ℚ} (h : pick_best_numeric l = some m) :
    m ∈ l ∧ ∀ x ∈ l, x ≤ m := by
  cases l with
  | nil => cases h
  | cons c t =>
    have hm : m = t.foldl max c := by
      have : some (t.foldl max c) = some m := h
      exact (Option.some.injEq _ _ ▸ this).symm
    obtain ⟨hmem, hle, hall⟩ := foldl_max_spec t c
    subst hm
    refine ⟨?_, ?_⟩
    · rcases hmem with h2 | h2
      · rw [h2]; exact List.mem_cons_self _ _
      · exact List.mem_cons_of_mem _ h2
    · intro x hx
      rcases List.mem_cons.1 hx with rfl | hx2
      · exact hle
      · exact hall x hx2

theorem pick_best_numeric_eq_none (l : List ℚ) : pick_best_numeric l = none ↔ l = [] := by
  cases l <;> simp [pick_best_numeric]

theorem classify_area_preferred (flat : List (String × String × String)) :
    (classify_props flat).area_preferred = preferred_area_vals flat := by
  induction flat with
  | nil => rfl
  | cons t rest ih =>
    cases hf : safe_float t.2.2 with
    | none =>
      simp [classify_props, preferred_area_vals, List.filterMap_cons, hf,
        apply_ite PropClasses.area_preferred, ih]
    | some fv =>
      by_cases hn : pyLowerStrip t.2.1 = "netfloorarea" ∨ pyLowerStrip t.2.1 = "grossfloorarea"
      · simp [classify_props, preferred_area_vals, List.filterMap_cons, hf, hn,
          apply_ite PropClasses.area_preferred, ih]
      · simp [classify_props, preferred_area_vals, List.filterMap_cons, hf, hn,
          apply_ite PropClasses.area_preferred, ih]

theorem classify_area_any (flat : List (String × String × String)) :
    (classify_props flat).area_any = fallback_area_vals flat := by
  induction flat with
  | nil => rfl
  | cons t rest ih =>
    cases hf : safe_float t.2.2 with
    | none =>
      simp [classify_props, fallback_area_vals, List.filterMap_cons, hf,
        apply_ite PropClasses.area_any, ih]
    | some fv =>
      by_cases hn : pyLowerStrip t.2.1 = "netfloorarea" ∨ pyLowerStrip t.2.1 = "grossfloorarea"
      · rcases hn with hn | hn <;>
          simp [classify_props, fallback_area_vals, List.filterMap_cons, hf, hn,
            apply_ite PropClasses.area_any, ih]
      · rw [not_or] at hn
        by_cases ha : containsSub "area".data (pyLowerStrip t.2.1).data = true
        · simp [classify_props, fallback_area_vals, List.filterMap_cons, hf, hn.1, hn.2, ha,
            apply_ite PropClasses.area_any, ih]
        · simp [classify_props, fallback_area_vals, List.filterMap_cons, hf, hn.1, hn.2, ha,
            apply_ite PropClasses.area_any, ih]

theorem classify_vol_preferred (flat : List (String × String × String)) :
    (classify_props flat).vol_preferred = preferred_vol_vals flat := by
  induction flat with
  | nil => rfl
  | cons t rest ih =>
    cases hf : safe_float t.2.2 with
    | none =>
      simp [classify_props, preferred_vol_vals, List.filterMap_cons, hf,
        apply_ite PropClasses.vol_preferred, ih]
    | some fv =>
      by_cases hn : pyLowerStrip t.2.1 = "netvolume" ∨ pyLowerStrip t.2.1 = "grossvolume"
      · simp [classify_props, preferred_vol_vals, List.filterMap_cons, hf, hn,
          apply_ite PropClasses.vol_preferred, ih]
      · simp [classify_props, preferred_vol_vals, List.filterMap_cons, hf, hn,
          apply_ite PropClasses.vol_preferred, ih]

theorem classify_vol_any (flat : List (String × String × String)) :
    (classify_props flat).vol_any = fallback_vol_vals flat := by
  induction flat with
  | nil => rfl
  | cons t rest ih =>
    cases hf : safe_float t.2.2 with
    | none =>
      simp [classify_props, fallback_vol_vals, List.filterMap_cons, hf,
        apply_ite PropClasses.vol_any, ih]
    | some fv =>
      by_cases hn : pyLowerStrip t.2.1 = "netvolume" ∨ pyLowerStrip t.2.1 = "grossvolume"
      · rcases hn with hn | hn <;>
          simp [classify_props, fallback_vol_vals, List.filterMap_cons, hf, hn,
            apply_ite PropClasses.vol_any, ih]
      · rw [not_or] at hn
        by_cases ha : containsSub "volume".data (pyLowerStrip t.2.1).data = true
        · simp [classify_props, fallback_vol_vals, List.filterMap_cons, hf, hn.1, hn.2, ha,
            apply_ite PropClasses.vol_any, ih]
        · simp [classify_props, fallback_vol_vals, List.filterMap_cons, hf, hn.1, hn.2, ha,
            apply_ite PropClasses.vol_any, ih]

theorem extract_area_cases (psets : Psets) :
    (extract_area_volume_from_ifc psets).1 =
      (if (preferred_area_vals (flatten_props psets)).isEmpty then
        (match pick_best_numeric (fallback_area_vals (flatten_props psets)) with
         | none => ""
         | some v => formatTwo v)
      else
        (match pick_best_numeric (preferred_area_vals (flatten_props psets)) with
         | none => ""
         | some v => formatTwo v)) := by
  simp only [extract_area_volume_from_ifc, classify_area_preferred, classify_area_any]
  by_cases h : (preferred_area_vals (flatten_props psets)).isEmpty = true <;> simp [h]

theorem extract_vol_cases (psets : Psets) :
    (extract_area_volume_from_ifc psets).2 =
      (if (preferred_vol_vals (flatten_props psets)).isEmpty then
        (match pick_best_numeric (fallback_vol_vals (flatten_props psets)) with
         | none => ""
         | some v => formatTwo v)
      else
        (match pick_best_numeric (preferred_vol_vals (flatten_props psets)) with
         | none => ""
         | some v => formatTwo v)) := by
  simp only [extract_area_volume_from_ifc, classify_vol_preferred, classify_vol_any]
  by_cases h : (preferred_vol_vals (flatten_props psets)).isEmpty = true <;> simp [h]

theorem isEmpty_false_of_pick {l : List ℚ} {m : ℚ} (h : pick_best_numeric l = some m) :
    l.isEmpty = false := by
  cases l with
  | nil => cases h
  | cons c t => rfl

theorem isEmpty_true_of_pick_none {l : List ℚ} (h : pick_best_numeric l = none) :
    l.isEmpty = true := by
  cases l with
  | nil => rfl
  | cons c t => cases h

theorem digitChar_isDigit {d : Nat} (h : d < 10) : (digitChar d).isDigit = true := by
  interval_cases d <;> decide

theorem formatTwo_shape (q : ℚ) :
    ∃ intpart : String, ∃ d1 d2 : Char,
      formatTwo q = intpart ++ "." ++ String.mk [d1, d2] ∧
        d1.isDigit = true ∧ d2.isDigit = true := by
  refine ⟨(if Int.floor (q * 100 + 1 / 2) < 0 then "-" else "") ++
      Nat.repr ((Int.floor (q * 100 + 1 / 2)).natAbs / 100),
    digitChar ((Int.floor (q * 100 + 1 / 2)).natAbs / 10 % 10),
    digitChar ((Int.floor (q * 100 + 1 / 2)).natAbs % 10), ?_, ?_, ?_⟩
  · rfl
  · exact digitChar_isDigit (Nat.mod_lt _ (by norm_num))
  · exact digitChar_isDigit (Nat.mod_lt _ (by norm_num))

theorem safe_float_scenario : safe_float " 1,234.50 " = some (2469 / 2 : ℚ) := by
  have h1 : safe_float " 1,234.50 " =
      some ((1 : ℚ) * ((digitsToNat ['1', '2', '3', '4'] : ℚ) +
        (digitsToNat ['5', '0'] : ℚ) / (10 ^ (['5', '0'] : List Char).length : ℚ))) := rfl
  rw [h1]
  norm_num [show (digitsToNat ['1', '2', '3', '4'] : Nat) = 1234 from rfl,
    show (digitsToNat ['5', '0'] : Nat) = 50 from rfl]

/-- Claim C7: area extraction prefers numeric values of properties whose
lowered name is exactly netfloorarea/grossfloorarea; only when that tier
has no parsed value does it fall back to properties whose name contains
the substring area (same for volume with netvolume/grossvolume and the
substring volume); the maximum of the selected tier is chosen; parsing
tolerates thousands-separator commas and surrounding whitespace; absent or
unparsable values leave the quantity as the empty string, and present
values are formatted with exactly two decimal places. -/
theorem area_volume_extraction_policy (psets : Psets) :
    (∀ m : ℚ, pick_best_numeric (preferred_area_vals (flatten_props psets)) = some m →
      (extract_area_volume_from_ifc psets).1 = formatTwo m) ∧
    (pick_best_numeric (preferred_area_vals (flatten_props psets)) = none →
      ∀ m : ℚ, pick_best_numeric (fallback_area_vals (flatten_props psets)) = some m →
        (extract_area_volume_from_ifc psets).1 = formatTwo m) ∧
    (pick_best_numeric (preferred_area_vals (flatten_props psets)) = none →
      pick_best_numeric (fallback_area_vals (flatten_props psets)) = none →
        (extract_area_volume_from_ifc psets).1 = "") ∧
    (∀ m : ℚ, pick_best_numeric (preferred_vol_vals (flatten_props psets)) = some m →
      (extract_area_volume_from_ifc psets).2 = formatTwo m) ∧
    (pick_best_numeric (preferred_vol_vals (flatten_props psets)) = none →
      ∀ m : ℚ, pick_best_numeric (fallback_vol_vals (flatten_props psets)) = some m →
        (extract_area_volume_from_ifc psets).2 = formatTwo m) ∧
    (pick_best_numeric (preferred_vol_vals (flatten_props psets)) = none →
      pick_best_numeric (fallback_vol_vals (flatten_props psets)) = none →
        (extract_area_volume_from_ifc psets).2 = "") ∧
    (∀ (l : List ℚ) (m : ℚ), pick_best_numeric l = some m → m ∈ l ∧ ∀ x ∈ l, x ≤ m) ∧
    safe_float " 1,234.50 " = some (2469 / 2 : ℚ) ∧ safe_float "" = none ∧
    (∀ q : ℚ, ∃ intpart : String, ∃ d1 d2 : Char,
      formatTwo q = intpart ++ "." ++ String.mk [d1, d2] ∧
        d1.isDigit = true ∧ d2.isDigit = true) := by
  refine ⟨?_, ?_, ?_, ?_, ?_, ?_, fun l m h => pick_best_numeric_spec h,
    safe_float_scenario, by decide, formatTwo_shape⟩
  · intro m hm
    rw [extract_area_cases, isEmpty_false_of_pick hm]
    simp [hm]
  · intro hnone m hm
    rw [extract_area_cases, isEmpty_true_of_pick_none hnone]
    simp [hm]
  · intro h1 h2
    rw [extract_area_cases, isEmpty_true_of_pick_none h1]
    simp [h2]
  · intro m hm
    rw [extract_vol_cases, isEmpty_false_of_pick hm]
    simp [hm]
  · intro hnone m hm
    rw [extract_vol_cases, isEmpty_true_of_pick_none hnone]
    simp [hm]
  · intro h1 h2
    rw [extract_vol_cases, isEmpty_true_of_pick_none h1]
    simp [h2]

theorem area_volume_extraction_policy_witness :
    pick_best_numeric (preferred_area_vals (flatten_props
        [("Q", [("NetFloorArea", " 1,234.50 ")])])) = some (2469 / 2 : ℚ) ∧
    (extract_area_volume_from_ifc [("Q", [("NetFloorArea", " 1,234.50 ")])]).1 =
      formatTwo (2469 / 2 : ℚ) := by
  have hv : preferred_area_vals (flatten_props [("Q", [("NetFloorArea", " 1,234.50 ")])]) =
      [((1 : ℚ) * ((digitsToNat ['1', '2', '3', '4'] : ℚ) +
        (digitsToNat ['5', '0'] : ℚ) / (10 ^ (['5', '0'] : List Char).length : ℚ)))] := rfl
  have hx : ((1 : ℚ) * ((digitsToNat ['1', '2', '3', '4'] : ℚ) +
      (digitsToNat ['5', '0'] : ℚ) / (10 ^ (['5', '0'] : List Char).length : ℚ))) =
        (2469 / 2 : ℚ) := by
    norm_num [show (digitsToNat ['1', '2', '3', '4'] : Nat) = 1234 from rfl,
      show (digitsToNat ['5', '0'] : Nat) = 50 from rfl]
  have hpick : pick_best_numeric (preferred_area_vals (flatten_props
      [("Q", [("NetFloorArea", " 1,234.50 ")])])) = some (2469 / 2 : ℚ) := by
    rw [hv, hx]
    rfl
  exact ⟨hpick,
    (area_volume_extraction_policy [("Q", [("NetFloorArea", " 1,234.50 ")])]).1
      (2469 / 2 : ℚ) hpick⟩
